import Mathlib

/-!
Verification of the Glancey code-search core against its specification.

Strings are modelled as `List Char`; JavaScript numbers are modelled as
exact rationals (`ℚ`).  Functions are translated from the TypeScript
source; where the source calls a collaborator that is not part of the
repository snapshot, the collaborator is modelled from the specification
and marked as such in its doc comment.
-/

/-! ## Hybrid search: keyword scoring (calculateKeywordScore) -/

/-- ASCII lowercasing, the effect of `String.prototype.toLowerCase` on the
ASCII range (the only range exercised by the scoring algorithm). -/
def jsToLower (c : Char) : Char :=
  if 'A' ≤ c ∧ c ≤ 'Z' then Char.ofNat (c.toNat + 32) else c

/-- Whitespace class of the JavaScript regex `\s` (ASCII part). -/
def isJsSpace (c : Char) : Bool :=
  c = ' ' || c = '\t' || c = '\n' || c = '\r' || c = Char.ofNat 11 || c = Char.ofNat 12

/-- Word characters of the JavaScript regex class `\w`, used by `\b`. -/
def isWordChar (c : Char) : Bool :=
  ('a' ≤ c && c ≤ 'z') || ('A' ≤ c && c ≤ 'Z') || ('0' ≤ c && c ≤ '9') || c = '_'

/-- Query tokenization of `calculateKeywordScore`:
`query.toLowerCase().split(/\s+/).filter((t) => t.length > 2)`.
`List.splitOnP` differs from the JS split only on empty tokens
(JS collapses whitespace runs and can emit empty edge tokens); the
length filter erases that difference. -/
def keywordTerms (query : List Char) : List (List Char) :=
  ((query.map jsToLower).splitOnP isJsSpace).filter (fun t => 2 < t.length)

/-- Whether the character at index `i` of `content` is a word character
(out-of-range counts as non-word, as at the ends of a JS string). -/
def wordCharAt (content : List Char) (i : ℕ) : Bool :=
  match content.get? i with
  | some c => isWordChar c
  | none => false

/-- The JS `\b` assertion at position `i` of `content`: the word-ness of
the characters on the two sides of the position differs. -/
def boundaryAt (content : List Char) (i : ℕ) : Bool :=
  (if i = 0 then false else wordCharAt content (i - 1)) != wordCharAt content i

/-- Semantics of `String.prototype.includes`: `needle` occurs as a
contiguous sublist of `haystack`. -/
def jsIncludes (haystack needle : List Char) : Bool :=
  (List.range (haystack.length + 1)).any fun i =>
    (haystack.drop i).take needle.length = needle

/-- Case-insensitive occurrence of `term` at index `i` of `content`. -/
def sliceEqCI (term content : List Char) (i : ℕ) : Bool :=
  ((content.drop i).take term.length).map jsToLower = term.map jsToLower

/-- The word-boundary search that `new RegExp("\\b" + term + "\\b", "i")`
performs when `term` consists solely of word characters (then the
unescaped interpolation contains no metacharacter, the pattern is valid,
and it is a literal whole-word search): a case-insensitive occurrence of
`term` with the `\b` assertion holding at both ends.  Terms containing
metacharacters behave differently (wildcards, or a constructor
SyntaxError) and are covered by the engine parameter `rt` of
`calculateKeywordScore`. -/
def hasWordBoundaryMatch (term content : List Char) : Bool :=
  (List.range (content.length + 1)).any fun i =>
    sliceEqCI term content i && boundaryAt content i && boundaryAt content (i + term.length)

/-- ASCII character.  `jsToLower` and `isJsSpace` agree exactly with
`String.prototype.toLowerCase` and the regex class `\s` on ASCII
characters; theorems that equate the model with the source therefore
carry ASCII hypotheses on their string inputs. -/
def isJsAscii (c : Char) : Bool := c.toNat < 128

/-- The loop body of `calculateKeywordScore`: per term, the
content-substring check, then (only if it passed) the regex construction
and test with the bonus, then the file-path check.  `none` aborts the
loop: a SyntaxError thrown by the regex constructor propagates. -/
def keywordFoldStep (rt : List Char → List Char → Option Bool)
    (contentLower filepathLower content : List Char)
    (acc : Option (ℚ × ℚ)) (term : List Char) : Option (ℚ × ℚ) :=
  match acc with
  | none => none
  | some (mc, eb) =>
      match
        (if jsIncludes contentLower term then
          match rt term content with
          | none => none
          | some b => some (mc + 1, if b then eb + 1/2 else eb)
        else some (mc, eb)) with
      | none => none
      | some acc1 =>
          some (if jsIncludes filepathLower term then (acc1.1 + 1/2, acc1.2)
                else acc1)

/-- Translation of `calculateKeywordScore(query, content, filepath)` from
the hybrid-search scoring code.  The regex test is host-runtime
behavior, so it enters as the parameter `rt`: `rt term content` is the
outcome of `new RegExp("\\b" + term + "\\b", "i").test(content)`, where
`none` is a SyntaxError thrown by the constructor (the term is
interpolated unescaped, so a term such as "c++" is an invalid pattern)
and `some b` a successful construction and test.  A thrown error aborts
the whole computation: the scorer returns `none`. -/
def calculateKeywordScore (rt : List Char → List Char → Option Bool)
    (query content filepath : List Char) : Option ℚ :=
  let queryTerms := keywordTerms query
  if queryTerms.length = 0 then some 0
  else
    let contentLower := content.map jsToLower
    let filepathLower := filepath.map jsToLower
    match queryTerms.foldl (keywordFoldStep rt contentLower filepathLower content)
      (some ((0 : ℚ), (0 : ℚ))) with
    | none => none
    | some counts =>
        some (min (counts.1 / (queryTerms.length : ℚ)
          + min (counts.2 / (queryTerms.length : ℚ)) (1/2)) 1)

/-- Per-term contribution to the match count, as the claim states it:
+1 for a case-insensitive substring match in the content, +0.5 for a
case-insensitive substring match in the file path. -/
def kwMatchContrib (content filepath : List Char) (term : List Char) : ℚ :=
  (if jsIncludes (content.map jsToLower) term then 1 else 0) +
    (if jsIncludes (filepath.map jsToLower) term then 1/2 else 0)

/-- Per-term contribution to the exact-match bonus, as the claim states
it: +0.5 when the term is a content substring match and a
case-insensitive whole-word match for the term exists in the original
content. -/
def kwBonusContrib (content : List Char) (term : List Char) : ℚ :=
  if jsIncludes (content.map jsToLower) term && hasWordBoundaryMatch term content
  then 1/2 else 0

/-- The regex engine on word-character-only terms: a literal whole-word
search that never throws. -/
def rtWord : List Char → List Char → Option Bool :=
  fun term content => some (hasWordBoundaryMatch term content)

lemma keywordFoldStep_literal (rt : List Char → List Char → Option Bool)
    (content filepath : List Char) (a b : ℚ) (t : List Char)
    (hrt : rt t content = some (hasWordBoundaryMatch t content)) :
    keywordFoldStep rt (content.map jsToLower) (filepath.map jsToLower) content
        (some (a, b)) t
      = some (a + kwMatchContrib content filepath t,
          b + kwBonusContrib content t) := by
  unfold keywordFoldStep kwMatchContrib kwBonusContrib
  rw [hrt]
  by_cases hc : jsIncludes (content.map jsToLower) t <;>
    by_cases hb : hasWordBoundaryMatch t content <;>
      by_cases hp : jsIncludes (filepath.map jsToLower) t <;>
        simp [hc, hb, hp, Prod.ext_iff] <;> (try constructor) <;>
          (first | trivial | ring)

lemma keywordFold_none (rt : List Char → List Char → Option Bool)
    (contentLower filepathLower content : List Char) (terms : List (List Char)) :
    terms.foldl (keywordFoldStep rt contentLower filepathLower content) none
      = none := by
  induction terms with
  | nil => rfl
  | cons t ts ih => exact ih

lemma keywordFold_eq (rt : List Char → List Char → Option Bool)
    (content filepath : List Char) (terms : List (List Char))
    (hrt : ∀ t ∈ terms, rt t content = some (hasWordBoundaryMatch t content)) :
    ∀ (a b : ℚ),
      terms.foldl (keywordFoldStep rt (content.map jsToLower)
          (filepath.map jsToLower) content) (some (a, b)) =
      some (a + (terms.map (kwMatchContrib content filepath)).sum,
        b + (terms.map (kwBonusContrib content)).sum) := by
  induction terms with
  | nil => intro a b; simp
  | cons t ts ih =>
      intro a b
      rw [List.foldl_cons,
        keywordFoldStep_literal rt content filepath a b t
          (hrt t (List.mem_cons_self t ts)),
        ih (fun u hu => hrt u (List.mem_cons_of_mem t hu))]
      simp [Prod.ext_iff]
      constructor <;> ring

/-- Closed form of `calculateKeywordScore` when every regex test behaves
as the literal whole-word search (shared by the formula and range
claims). -/
lemma calculateKeywordScore_eq_formula (rt : List Char → List Char → Option Bool)
    (query content filepath : List Char)
    (h : keywordTerms query ≠ [])
    (hrt : ∀ t ∈ keywordTerms query,
      rt t content = some (hasWordBoundaryMatch t content)) :
    calculateKeywordScore rt query content filepath =
      some (min (((keywordTerms query).map (kwMatchContrib content filepath)).sum
              / ((keywordTerms query).length : ℚ)
            + min (((keywordTerms query).map (kwBonusContrib content)).sum
              / ((keywordTerms query).length : ℚ)) (1/2)) 1) := by
  have hlen : ¬((keywordTerms query).length = 0) := by
    simpa [List.length_eq_zero] using h
  unfold calculateKeywordScore
  simp only [hlen, if_false, keywordFold_eq rt content filepath _ hrt, zero_add]

lemma kwMatchContrib_nonneg (content filepath term : List Char) :
    0 ≤ kwMatchContrib content filepath term := by
  unfold kwMatchContrib
  split <;> split <;> norm_num

lemma kwBonusContrib_nonneg (content term : List Char) :
    0 ≤ kwBonusContrib content term := by
  unfold kwBonusContrib
  split <;> norm_num

/-- The regex engine at the single constructor call the C1 counterexample
exercises: `new RegExp("\\ba.c\\b", "i").test("xa.c abc")` constructs
successfully and returns `true`, because the unescaped dot is a wildcard
and the pattern matches the word "abc".  No other term of that query
passes the content-substring check, so no other regex is built. -/
def rtDotCex : List Char → List Char → Option Bool := fun _ _ => some true

/-- Counterexample to C1 as stated: at query "a.c zzz" and content
"xa.c abc" the program scores 0.75 (the unescaped term "a.c" earns the
whole-word bonus through its wildcard dot matching "abc"), while the
claimed formula — whose bonus requires a whole-word match of the literal
term — gives 0.5. -/
theorem c1_keyword_score_formula_counterexample :
    keywordTerms "a.c zzz".toList ≠ [] ∧
    calculateKeywordScore rtDotCex "a.c zzz".toList "xa.c abc".toList "f.ts".toList
      = some (3/4) ∧
    min 1 (((keywordTerms "a.c zzz".toList).map
        (kwMatchContrib "xa.c abc".toList "f.ts".toList)).sum
        / ((keywordTerms "a.c zzz".toList).length : ℚ)
      + min (1/2) (((keywordTerms "a.c zzz".toList).map
        (kwBonusContrib "xa.c abc".toList)).sum
        / ((keywordTerms "a.c zzz".toList).length : ℚ))) = 1/2 ∧
    (3/4 : ℚ) ≠ 1/2 := by
  have ht : keywordTerms "a.c zzz".toList = ["a.c".toList, "zzz".toList] := by decide
  have hclc : List.map jsToLower "xa.c abc".toList = "xa.c abc".toList := by decide
  have hclf : List.map jsToLower "f.ts".toList = "f.ts".toList := by decide
  have hic1 : jsIncludes "xa.c abc".toList "a.c".toList = true := by decide
  have hic2 : jsIncludes "xa.c abc".toList "zzz".toList = false := by decide
  have hif1 : jsIncludes "f.ts".toList "a.c".toList = false := by decide
  have hif2 : jsIncludes "f.ts".toList "zzz".toList = false := by decide
  have hwb : hasWordBoundaryMatch "a.c".toList "xa.c abc".toList = false := by decide
  have h1 : keywordFoldStep rtDotCex "xa.c abc".toList "f.ts".toList
      "xa.c abc".toList (some (0, 0)) "a.c".toList = some (1, 1/2) := by
    unfold keywordFoldStep rtDotCex
    rw [hic1, hif1]
    norm_num
  have h2 : keywordFoldStep rtDotCex "xa.c abc".toList "f.ts".toList
      "xa.c abc".toList (some (1, 1/2)) "zzz".toList = some (1, 1/2) := by
    unfold keywordFoldStep
    rw [hic2, hif2]
    simp
  refine ⟨by decide, ?_, ?_, by norm_num⟩
  · simp only [calculateKeywordScore]
    rw [ht, hclc, hclf, List.foldl_cons, h1, List.foldl_cons, h2, List.foldl_nil]
    norm_num [min_def]
  · rw [ht]
    have m1 : kwMatchContrib "xa.c abc".toList "f.ts".toList "a.c".toList = 1 := by
      unfold kwMatchContrib
      rw [hclc, hclf, hic1, hif1]
      norm_num
    have m2 : kwMatchContrib "xa.c abc".toList "f.ts".toList "zzz".toList = 0 := by
      unfold kwMatchContrib
      rw [hclc, hclf, hic2, hif2]
      norm_num
    have b1 : kwBonusContrib "xa.c abc".toList "a.c".toList = 0 := by
      unfold kwBonusContrib
      rw [hclc, hic1, hwb]
      norm_num
    have b2 : kwBonusContrib "xa.c abc".toList "zzz".toList = 0 := by
      unfold kwBonusContrib
      rw [hclc, hic2]
      norm_num
    rw [List.map_cons, List.map_cons, List.map_nil, m1, m2,
      List.map_cons, List.map_cons, List.map_nil, b1, b2]
    norm_num [min_def]

/-- C1 (amended: restricted to ASCII inputs whose long query tokens
consist only of word characters, where the unescaped pattern
`\b term \b` is valid and is exactly the literal whole-word search; for
metacharacter terms the program diverges from the formula, see the
counterexample): the keyword score equals
`min(1, matchCount/termCount + min(0.5, exactBonus/termCount))` with the
claimed per-term contributions. -/
theorem c1_keyword_score_formula (rt : List Char → List Char → Option Bool)
    (query content filepath : List Char)
    (hne : keywordTerms query ≠ [])
    (hwc : ∀ t ∈ keywordTerms query, t.all isWordChar)
    (hrt : ∀ t c, t.all isWordChar → rt t c = some (hasWordBoundaryMatch t c))
    (hq : query.all isJsAscii) (hc : content.all isJsAscii)
    (hf : filepath.all isJsAscii) :
    calculateKeywordScore rt query content filepath =
      some (min 1 (((keywordTerms query).map (kwMatchContrib content filepath)).sum
              / ((keywordTerms query).length : ℚ)
            + min (1/2) (((keywordTerms query).map (kwBonusContrib content)).sum
              / ((keywordTerms query).length : ℚ)))) := by
  rw [calculateKeywordScore_eq_formula rt query content filepath hne
    (fun t ht => hrt t content (hwc t ht)),
    min_comm _ (1 : ℚ), min_comm _ ((1:ℚ)/2)]

/-- Witness for the amended C1 at a concrete query, chunk text and file
path, with the engine instantiated by the literal whole-word search it
must equal on word-character terms. -/
theorem c1_keyword_score_formula_witness :
    (keywordTerms "Hello world".toList ≠ [] ∧
      (∀ t ∈ keywordTerms "Hello world".toList, t.all isWordChar) ∧
      "Hello world".toList.all isJsAscii ∧
      "say hello there".toList.all isJsAscii ∧
      "src/app.ts".toList.all isJsAscii) ∧
    calculateKeywordScore rtWord "Hello world".toList "say hello there".toList
        "src/app.ts".toList =
      some (min 1 (((keywordTerms "Hello world".toList).map
                (kwMatchContrib "say hello there".toList "src/app.ts".toList)).sum
              / ((keywordTerms "Hello world".toList).length : ℚ)
            + min (1/2) (((keywordTerms "Hello world".toList).map
                (kwBonusContrib "say hello there".toList)).sum
              / ((keywordTerms "Hello world".toList).length : ℚ)))) :=
  ⟨⟨by decide, by decide, by decide, by decide, by decide⟩,
    c1_keyword_score_formula rtWord _ _ _ (by decide) (by decide)
      (fun _ _ _ => rfl) (by decide) (by decide) (by decide)⟩

/-- The regex engine at the single constructor call the C8 counterexample
exercises: `new RegExp("\\bc++\\b", "i")` throws a SyntaxError (the
second `+` has nothing to repeat) before any test can run. -/
def rtCppCex : List Char → List Char → Option Bool := fun _ _ => none

/-- Counterexample to C8 as stated: the scorer is not total.  The query
"c++" has the long token "c++", the content "c++" passes the substring
check, and the regex constructor for the unescaped term throws — the
program raises a SyntaxError instead of returning a score. -/
theorem c8_keyword_score_counterexample :
    keywordTerms "c++".toList ≠ [] ∧
    calculateKeywordScore rtCppCex "c++".toList "c++".toList "f.ts".toList = none := by
  have ht : keywordTerms "c++".toList = ["c++".toList] := by decide
  have hclc : List.map jsToLower "c++".toList = "c++".toList := by decide
  have hclf : List.map jsToLower "f.ts".toList = "f.ts".toList := by decide
  have hic : jsIncludes "c++".toList "c++".toList = true := by decide
  have h1 : keywordFoldStep rtCppCex "c++".toList "f.ts".toList
      "c++".toList (some (0, 0)) "c++".toList = none := by
    unfold keywordFoldStep rtCppCex
    rw [hic]
    simp
  refine ⟨by decide, ?_⟩
  simp only [calculateKeywordScore]
  rw [ht, hclc, hclf, List.foldl_cons, h1, List.foldl_nil]
  simp

lemma keywordFoldStep_cases (rt : List Char → List Char → Option Bool)
    (cl fl content : List Char) (a b : ℚ) (t : List Char) :
    keywordFoldStep rt cl fl content (some (a, b)) t = none ∨
    ∃ a1 b1, keywordFoldStep rt cl fl content (some (a, b)) t = some (a1, b1) ∧
      a ≤ a1 ∧ b ≤ b1 := by
  by_cases hc : jsIncludes cl t
  · cases hr : rt t content with
    | none =>
        left
        unfold keywordFoldStep
        simp [hc, hr]
    | some bb =>
        right
        by_cases hp : jsIncludes fl t <;> by_cases hbb : bb
        · exact ⟨a + 1 + 1/2, b + 1/2,
            by unfold keywordFoldStep; simp [hc, hr, hp, hbb],
            by linarith, by linarith⟩
        · exact ⟨a + 1 + 1/2, b,
            by unfold keywordFoldStep; simp [hc, hr, hp, hbb],
            by linarith, le_rfl⟩
        · exact ⟨a + 1, b + 1/2,
            by unfold keywordFoldStep; simp [hc, hr, hp, hbb],
            by linarith, by linarith⟩
        · exact ⟨a + 1, b,
            by unfold keywordFoldStep; simp [hc, hr, hp, hbb],
            by linarith, le_rfl⟩
  · right
    by_cases hp : jsIncludes fl t
    · exact ⟨a + 1/2, b, by unfold keywordFoldStep; simp [hc, hp],
        by linarith, le_rfl⟩
    · exact ⟨a, b, by unfold keywordFoldStep; simp [hc, hp], le_rfl, le_rfl⟩

lemma keywordFold_mono (rt : List Char → List Char → Option Bool)
    (cl fl content : List Char) (terms : List (List Char)) :
    ∀ (a b mc eb : ℚ),
      terms.foldl (keywordFoldStep rt cl fl content) (some (a, b)) = some (mc, eb) →
      a ≤ mc ∧ b ≤ eb := by
  induction terms with
  | nil =>
      intro a b mc eb h
      obtain ⟨rfl, rfl⟩ := Prod.mk.injEq .. ▸ Option.some.inj h
      exact ⟨le_rfl, le_rfl⟩
  | cons t ts ih =>
      intro a b mc eb h
      rw [List.foldl_cons] at h
      rcases keywordFoldStep_cases rt cl fl content a b t with
        hnone | ⟨a1, b1, hsome, ha1, hb1⟩
      · rw [hnone, keywordFold_none] at h
        cases h
      · rw [hsome] at h
        obtain ⟨h1, h2⟩ := ih a1 b1 mc eb h
        exact ⟨le_trans ha1 h1, le_trans hb1 h2⟩

/-- C8 (amended: the scorer can throw — the regex constructor raises a
SyntaxError for a metacharacter term that passed the content check, see
the counterexample — so totality is restricted to the runs that return):
whenever `calculateKeywordScore` returns a value, that value lies in
[0,1]; and a query with no token of length > 2 returns 0 before any
division by the term count.  The bound holds for every engine outcome
and every tokenization, so it covers the source on all inputs. -/
theorem c8_keyword_score_total_range (rt : List Char → List Char → Option Bool)
    (query content filepath : List Char) :
    (∀ v, calculateKeywordScore rt query content filepath = some v →
      0 ≤ v ∧ v ≤ 1) ∧
    (keywordTerms query = [] →
      calculateKeywordScore rt query content filepath = some 0) := by
  constructor
  · intro v hv
    by_cases h : keywordTerms query = []
    · unfold calculateKeywordScore at hv
      simp [h] at hv
      simp [← hv]
    · have hlen : ¬((keywordTerms query).length = 0) := by
        simpa [List.length_eq_zero] using h
      unfold calculateKeywordScore at hv
      simp only [hlen, if_false] at hv
      cases hfold : (keywordTerms query).foldl
          (keywordFoldStep rt (content.map jsToLower) (filepath.map jsToLower) content)
          (some ((0 : ℚ), (0 : ℚ))) with
      | none => rw [hfold] at hv; cases hv
      | some counts =>
          rw [hfold] at hv
          obtain rfl := Option.some.inj hv
          obtain ⟨mc, eb⟩ := counts
          obtain ⟨hmc, heb⟩ := keywordFold_mono rt (content.map jsToLower)
            (filepath.map jsToLower) content (keywordTerms query) 0 0 mc eb hfold
          have hlq : (0:ℚ) ≤ ((keywordTerms query).length : ℚ) := by positivity
          constructor
          · exact le_min (add_nonneg (div_nonneg hmc hlq)
              (le_min (div_nonneg heb hlq) (by norm_num))) zero_le_one
          · exact min_le_right _ _
  · intro h
    unfold calculateKeywordScore
    simp [h]

/-- Witness for the amended C8 at a concrete query with no token longer
than 2. -/
theorem c8_keyword_score_total_range_witness :
    (∀ v, calculateKeywordScore rtWord "a b".toList "abc".toList "f.ts".toList
        = some v → 0 ≤ v ∧ v ≤ 1) ∧
    (keywordTerms "a b".toList = [] →
      calculateKeywordScore rtWord "a b".toList "abc".toList "f.ts".toList
        = some 0) :=
  c8_keyword_score_total_range rtWord "a b".toList "abc".toList "f.ts".toList

/-! ## Hybrid search: combined score (calculateCombinedScore) -/

/-- Translation of `calculateCombinedScore(semanticScore, keywordScore,
semanticWeight, keywordWeight)` from the hybrid-search re-ranking code. -/
def calculateCombinedScore (semanticScore keywordScore semanticWeight keywordWeight : ℚ) : ℚ :=
  semanticWeight * semanticScore + keywordWeight * keywordScore

/-- Counterexample to C2 as stated: the weights 2 and −1 sum to 1 and the
scores 0 and 1 lie in [0,1], yet the combined score is −1, outside [0,1];
moreover raising the keyword score from 0 to 1 strictly lowers it. -/
theorem c2_combined_score_counterexample :
    (2:ℚ) + (-1) = 1 ∧
    (0 ≤ (0:ℚ) ∧ (0:ℚ) ≤ 1) ∧ (0 ≤ (1:ℚ) ∧ (1:ℚ) ≤ 1) ∧
    calculateCombinedScore 0 1 2 (-1) < 0 ∧
    calculateCombinedScore 0 1 2 (-1) < calculateCombinedScore 0 0 2 (-1) := by
  norm_num [calculateCombinedScore]

/-- C2 (amended: the weights must additionally be nonnegative): for
nonnegative weights summing to 1 and scores in [0,1], the combined score
lies in [0,1] and is monotone in each component score. -/
theorem c2_combined_score_bounds_mono (sw kw s k s2 k2 : ℚ)
    (hsw : 0 ≤ sw) (hkw : 0 ≤ kw) (hsum : sw + kw = 1)
    (hs0 : 0 ≤ s) (hs1 : s ≤ 1) (hk0 : 0 ≤ k) (hk1 : k ≤ 1) :
    (0 ≤ calculateCombinedScore s k sw kw ∧ calculateCombinedScore s k sw kw ≤ 1) ∧
    (s ≤ s2 → calculateCombinedScore s k sw kw ≤ calculateCombinedScore s2 k sw kw) ∧
    (k ≤ k2 → calculateCombinedScore s k sw kw ≤ calculateCombinedScore s k2 sw kw) := by
  unfold calculateCombinedScore
  refine ⟨⟨?_, ?_⟩, fun hle => ?_, fun hle => ?_⟩
  · have h1 := mul_nonneg hsw hs0
    have h2 := mul_nonneg hkw hk0
    linarith
  · have h1 : sw * s ≤ sw := by nlinarith
    have h2 : kw * k ≤ kw := by nlinarith
    linarith
  · have h1 : sw * s ≤ sw * s2 := by nlinarith
    linarith
  · have h1 : kw * k ≤ kw * k2 := by nlinarith
    linarith

/-- Witness for the amended C2 at the default weights 0.7/0.3. -/
theorem c2_combined_score_bounds_mono_witness :
    (0 ≤ calculateCombinedScore (1/2) (1/4) (7/10) (3/10) ∧
      calculateCombinedScore (1/2) (1/4) (7/10) (3/10) ≤ 1) ∧
    ((1:ℚ)/2 ≤ 3/4 →
      calculateCombinedScore (1/2) (1/4) (7/10) (3/10) ≤
        calculateCombinedScore (3/4) (1/4) (7/10) (3/10)) ∧
    ((1:ℚ)/4 ≤ 1 →
      calculateCombinedScore (1/2) (1/4) (7/10) (3/10) ≤
        calculateCombinedScore (1/2) 1 (7/10) (3/10)) :=
  c2_combined_score_bounds_mono (7/10) (3/10) (1/2) (1/4) (3/4) 1
    (by norm_num) (by norm_num) (by norm_num) (by norm_num) (by norm_num)
    (by norm_num) (by norm_num)

/-! ## Tool argument parsing (parseSearchSimilarArgs) -/

/-- A JavaScript runtime value as far as the argument parsers inspect it. -/
inductive JSVal where
  | vStr : String → JSVal
  | vNum : ℚ → JSVal
  | vBool : Bool → JSVal
  | vNull : JSVal
  | vUndef : JSVal
deriving DecidableEq

/-- Modelled from the spec: `isString` lives in `src/utils/type-guards.ts`,
which is not in the source snapshot; per its call sites and the validation
taxonomy it is the `typeof x === "string"` runtime guard. -/
def isString : JSVal → Bool
  | .vStr _ => true
  | _ => false

/-- Modelled from the spec: `isNumber` from `src/utils/type-guards.ts`,
the `typeof x === "number"` runtime guard (numbers are modelled as ℚ). -/
def isNumber : JSVal → Bool
  | .vNum _ => true
  | _ => false

/-- The string payload when the guard `isString` accepts the value. -/
def asString : JSVal → Option String
  | .vStr s => some s
  | _ => none

/-- The numeric payload when the guard `isNumber` accepts the value. -/
def asNumber : JSVal → Option ℚ
  | .vNum q => some q
  | _ => none

/-- Error type of `LanceContextError(message, category, context)`
(the context payload is not inspected by any claim). -/
structure LanceContextError where
  message : String
  category : String
deriving DecidableEq

/-- Result record of `parseSearchSimilarArgs`. -/
structure SearchSimilarArgs where
  code : Option String
  filepath : Option String
  startLine : Option ℚ
  endLine : Option ℚ
  limit : ℚ
  threshold : Option ℚ
  excludeSelf : Bool
deriving DecidableEq

/-- The raw `Record<string, unknown>` argument object, restricted to the
keys the parser reads; an absent key is `vUndef` (JS `undefined`). -/
structure RawArgs where
  code : JSVal
  filepath : JSVal
  startLine : JSVal
  endLine : JSVal
  limit : JSVal
  threshold : JSVal
  excludeSelf : JSVal
deriving DecidableEq

/-- JS falsiness of a `string | undefined` value: `undefined` and the
empty string are falsy. -/
def strFalsy : Option String → Bool
  | none => true
  | some s => s = ""

/-- Translation of `parseSearchSimilarArgs(args)` from
`src/tools/search-handlers.ts`. -/
def parseSearchSimilarArgs (args : RawArgs) : Except LanceContextError SearchSimilarArgs :=
  let code := asString args.code
  let filepath := asString args.filepath
  if strFalsy code && strFalsy filepath then
    .error ⟨"Either code or filepath must be provided", "validation"⟩
  else
    .ok { code := code
          filepath := filepath
          startLine := asNumber args.startLine
          endLine := asNumber args.endLine
          limit := (asNumber args.limit).getD 10
          threshold := asNumber args.threshold
          excludeSelf := args.excludeSelf ≠ .vBool false }

/-- A string-valued, non-empty (hence JS-truthy) argument value. -/
def jsTruthyString (v : JSVal) : Bool :=
  match v with
  | .vStr s => decide (s ≠ "")
  | _ => false

/-- The all-`undefined` argument object. -/
def rawUndef : RawArgs := ⟨.vUndef, .vUndef, .vUndef, .vUndef, .vUndef, .vUndef, .vUndef⟩

lemma strFalsy_asString (v : JSVal) : strFalsy (asString v) = !jsTruthyString v := by
  cases v <;> simp [strFalsy, asString, jsTruthyString, decide_not]

/-- Counterexample to C6 as stated: the argument object `{code: ""}`
provides a string-valued `code`, yet the parser throws the validation
error, because the empty string is falsy in JavaScript. -/
theorem c6_parse_search_similar_counterexample :
    isString (RawArgs.code { rawUndef with code := .vStr "" }) = true ∧
    parseSearchSimilarArgs { rawUndef with code := .vStr "" } =
      .error ⟨"Either code or filepath must be provided", "validation"⟩ := by
  constructor
  · rfl
  · rfl

/-- C6 (amended: the provided `code`/`filepath` string must additionally
be non-empty, since JS falsiness treats `""` like an absent argument):
`parseSearchSimilarArgs` returns the validation error exactly when
neither a non-empty string `code` nor a non-empty string `filepath` is
given, and otherwise returns normally with `limit` defaulting to 10 when
no numeric `limit` is given. -/
theorem c6_parse_search_similar (args : RawArgs) :
    ((∃ e, parseSearchSimilarArgs args = .error e ∧ e.category = "validation") ↔
      ¬(jsTruthyString args.code = true ∨ jsTruthyString args.filepath = true)) ∧
    ((jsTruthyString args.code = true ∨ jsTruthyString args.filepath = true) →
      ∃ r, parseSearchSimilarArgs args = .ok r ∧
        (isNumber args.limit = false → r.limit = 10)) := by
  have hcond : (strFalsy (asString args.code) && strFalsy (asString args.filepath)) =
      !(jsTruthyString args.code || jsTruthyString args.filepath) := by
    rw [strFalsy_asString, strFalsy_asString]
    cases jsTruthyString args.code <;> cases jsTruthyString args.filepath <;> rfl
  simp only [parseSearchSimilarArgs]
  rw [hcond]
  cases hb : (jsTruthyString args.code || jsTruthyString args.filepath) with
  | false =>
      have hb2 : ¬(jsTruthyString args.code = true ∨ jsTruthyString args.filepath = true) := by
        simpa [Bool.or_eq_true] using hb
      simp only [Bool.not_false, if_true]
      exact ⟨⟨fun _ => hb2, fun _ => ⟨_, rfl, rfl⟩⟩, fun hc => absurd hc hb2⟩
  | true =>
      have hb2 : jsTruthyString args.code = true ∨ jsTruthyString args.filepath = true := by
        simpa [Bool.or_eq_true] using hb
      simp only [Bool.not_true, Bool.false_eq_true, if_false]
      refine ⟨⟨fun ⟨e, he, _⟩ => by simp at he, fun hc => absurd hb2 hc⟩,
        fun _ => ⟨_, rfl, ?_⟩⟩
      intro hnum
      cases hl : args.limit <;> simp_all [asNumber, isNumber]

/-- Witness for the amended C6 at the argument object `{code: "x"}`. -/
theorem c6_parse_search_similar_witness :
    ((∃ e, parseSearchSimilarArgs { rawUndef with code := .vStr "x" } = .error e ∧
        e.category = "validation") ↔
      ¬(jsTruthyString (RawArgs.code { rawUndef with code := .vStr "x" }) = true ∨
        jsTruthyString (RawArgs.filepath { rawUndef with code := .vStr "x" }) = true)) ∧
    ((jsTruthyString (RawArgs.code { rawUndef with code := .vStr "x" }) = true ∨
        jsTruthyString (RawArgs.filepath { rawUndef with code := .vStr "x" }) = true) →
      ∃ r, parseSearchSimilarArgs { rawUndef with code := .vStr "x" } = .ok r ∧
        (isNumber (RawArgs.limit { rawUndef with code := .vStr "x" }) = false → r.limit = 10)) :=
  c6_parse_search_similar { rawUndef with code := .vStr "x" }

/-- C10: whenever `parseSearchSimilarArgs` returns, any `excludeSelf`
argument other than the boolean `false` (including an omitted or
non-boolean one) yields `excludeSelf = true` in the result. -/
theorem c10_exclude_self_default (args : RawArgs) (r : SearchSimilarArgs)
    (hok : parseSearchSimilarArgs args = .ok r)
    (h : args.excludeSelf ≠ .vBool false) :
    r.excludeSelf = true := by
  simp only [parseSearchSimilarArgs] at hok
  by_cases hc : (strFalsy (asString args.code) && strFalsy (asString args.filepath)) = true
  · simp [hc] at hok
  · rw [Bool.not_eq_true] at hc
    simp only [hc, Bool.false_eq_true, if_false, Except.ok.injEq] at hok
    rw [← hok]
    simpa using h

/-- Witness for C10 at `{code: "x"}` with `excludeSelf` omitted. -/
theorem c10_exclude_self_default_witness :
    SearchSimilarArgs.excludeSelf
      ⟨some "x", none, none, none, 10, none, true⟩ = true :=
  c10_exclude_self_default { rawUndef with code := .vStr "x" }
    ⟨some "x", none, none, none, 10, none, true⟩ (by rfl) (by decide)

/-! ## Embedding pipeline: OllamaBackend.embedBatch -/

/-- Modelled from the spec: `chunkArray` lives in `src/embeddings/types.ts`,
which is not in the source snapshot; per the specification the batch
dispatcher "splits an arbitrary-length text list into fixed-size groups
(batchSize)", the last group holding the remainder, as its unit tests
exercise.  For `size = 0` the JS loop would not terminate; the model
returns `[]` there and the claims assume a positive batch size. -/
def chunkArrayFuel {α : Type} : ℕ → List α → ℕ → List (List α)
  | _, [], _ => []
  | _, _ :: _, 0 => []
  | 0, _ :: _, _ + 1 => []
  | fuel + 1, a :: rest, size + 1 =>
      (a :: rest.take size) :: chunkArrayFuel fuel (rest.drop size) (size + 1)

/-- Modelled from the spec: `chunkArray` lives in `src/embeddings/types.ts`,
which is not in the source snapshot; per the specification the batch
dispatcher "splits an arbitrary-length text list into fixed-size groups
(batchSize)", the last group holding the remainder, as its unit tests
exercise.  The recursion is driven by a fuel argument that starts at the
list length (always enough, since every step consumes at least one
element).  For `size = 0` the JS loop would not terminate; the model
returns `[]` there and the claims assume a positive batch size. -/
def chunkArray {α : Type} (l : List α) (size : ℕ) : List (List α) :=
  chunkArrayFuel l.length l size

/-- `Promise.all(chunk.map((t) => this.embed(t)))`: every request `i` of
the group eventually resolves and writes `f(xs[i])` into the result slot
`i`; `order` is the order in which the requests happen to complete.  A
slot is `none` while its request is pending. -/
def promiseAll {α β : Type} (xs : List α) (f : α → β) (order : List ℕ) : List (Option β) :=
  order.foldl (fun slots i => slots.set i ((xs.get? i).map f))
    (List.replicate xs.length none)

/-- Translation of `OllamaBackend.embedBatch(texts)` from
`src/embeddings/ollama.ts`: split into `batchSize` groups, resolve each
group with `Promise.all` (the requests of group `g` completing in the
arbitrary order `ord g`), and concatenate the group results in order. -/
def embedBatch {V : Type} (embed : String → V) (batchSize : ℕ) (ord : ℕ → List ℕ)
    (texts : List String) : List (Option V) :=
  ((chunkArray texts batchSize).enum.map fun p => promiseAll p.2 embed (ord p.1)).flatten

lemma chunkArrayFuel_flatten {α : Type} :
    ∀ (fuel : ℕ) (l : List α) (size : ℕ), l.length ≤ fuel → 0 < size →
      (chunkArrayFuel fuel l size).flatten = l
  | fuel, [], size, _, _ => by
      cases fuel <;> cases size <;> rfl
  | 0, _ :: _, _ + 1, h, _ => by simp at h
  | fuel + 1, a :: rest, s + 1, h, hs => by
      rw [chunkArrayFuel, List.flatten_cons,
        chunkArrayFuel_flatten fuel (rest.drop s) (s + 1)
          (by simp at h ⊢; omega) hs]
      simp [List.cons_append, List.take_append_drop]

lemma chunkArray_join {α : Type} (l : List α) (size : ℕ) (hsize : 0 < size) :
    (chunkArray l size).flatten = l :=
  chunkArrayFuel_flatten l.length l size le_rfl hsize

lemma promiseAll_get_notMem {α β : Type} (xs : List α) (f : α → β) (order : List ℕ)
    (slots : List (Option β)) (j : ℕ) (hj : j ∉ order) :
    (order.foldl (fun slots i => slots.set i ((xs.get? i).map f)) slots).get? j =
      slots.get? j := by
  induction order generalizing slots with
  | nil => rfl
  | cons i rest ih =>
      have hji : j ≠ i := fun h => hj (h ▸ List.mem_cons_self i rest)
      have hjr : j ∉ rest := fun h => hj (List.mem_cons_of_mem i h)
      rw [List.foldl_cons, ih _ hjr, List.get?_set_ne _ _ (Ne.symm hji)]

lemma promiseAll_get_mem {α β : Type} (xs : List α) (f : α → β) (order : List ℕ)
    (slots : List (Option β)) (j : ℕ) (hj : j ∈ order) (hlen : slots.length = xs.length)
    (hjx : j < xs.length) :
    (order.foldl (fun slots i => slots.set i ((xs.get? i).map f)) slots).get? j =
      some ((xs.get? j).map f) := by
  induction order generalizing slots with
  | nil => cases hj
  | cons i rest ih =>
      rw [List.foldl_cons]
      by_cases hjr : j ∈ rest
      · exact ih _ hjr (by simp [hlen])
      · have hji : j = i := by
          rcases List.mem_cons.mp hj with h | h
          · exact h
          · exact absurd h hjr
        subst hji
        rw [promiseAll_get_notMem xs f rest _ j hjr,
          List.get?_set_eq_of_lt _ (by rw [hlen]; exact hjx)]

lemma foldl_set_length {β : Type} (order : List ℕ) (step : ℕ → Option β)
    (slots : List (Option β)) :
    (order.foldl (fun slots i => slots.set i (step i)) slots).length = slots.length := by
  induction order generalizing slots with
  | nil => rfl
  | cons i rest ih => rw [List.foldl_cons, ih, List.length_set]

/-- After all requests of a group complete (in any order that covers every
index of the group), the result array holds exactly the embeddings of the
group texts, in input order. -/
lemma promiseAll_eq_map {α β : Type} (xs : List α) (f : α → β) (order : List ℕ)
    (hcov : ∀ j < xs.length, j ∈ order) :
    promiseAll xs f order = xs.map (fun x => some (f x)) := by
  apply List.ext_get?
  intro j
  by_cases hj : j < xs.length
  · rw [promiseAll, promiseAll_get_mem xs f order _ j (hcov j hj) (by simp) hj]
    simp [List.get?_eq_getElem?, List.getElem?_eq_getElem hj]
  · have h1 : (promiseAll xs f order).length = xs.length := by
      rw [promiseAll, foldl_set_length]
      simp
    have hle : xs.length ≤ j := le_of_not_lt hj
    rw [List.get?_eq_getElem?, List.get?_eq_getElem?,
      List.getElem?_eq_none (by rw [h1]; exact hle),
      List.getElem?_eq_none (by rw [List.length_map]; exact hle)]

lemma enumFrom_map_snd {β γ : Type} (l : List β) (h : β → γ) (n : ℕ) :
    ((List.enumFrom n l).map fun p => h p.2) = l.map h := by
  induction l generalizing n with
  | nil => rfl
  | cons x xs ih => simp [List.enumFrom, ih]

/-- C3: for a positive batch size, whatever order the requests of each
dispatched group complete in (as long as every request of the group does
complete), `embedBatch texts` is the list of embeddings of `texts` in
input order, i.e. it extensionally equals mapping `embed` over `texts`. -/
theorem c3_embedBatch_preserves_order {V : Type} (embed : String → V) (batchSize : ℕ)
    (ord : ℕ → List ℕ) (texts : List String)
    (hbs : 0 < batchSize)
    (hcov : ∀ g, g < (chunkArray texts batchSize).length →
       ∀ j, j < ((chunkArray texts batchSize).getD g []).length → j ∈ ord g) :
    embedBatch embed batchSize ord texts = texts.map (fun t => some (embed t)) := by
  unfold embedBatch
  have h1 : ∀ p ∈ (chunkArray texts batchSize).enum,
      promiseAll p.2 embed (ord p.1) = p.2.map (fun t => some (embed t)) := by
    intro p hp
    obtain ⟨i, c⟩ := p
    have hget : (chunkArray texts batchSize)[i]? = some c :=
      List.mk_mem_enum_iff_getElem?.mp hp
    obtain ⟨hi, hc⟩ := List.getElem?_eq_some_iff.mp hget
    have hgd : (chunkArray texts batchSize).getD i [] = c := by
      rw [List.getD_eq_getElem?_getD, hget]
      rfl
    apply promiseAll_eq_map
    intro j hj
    exact hcov i hi j (by rw [hgd]; exact hj)
  rw [List.map_congr_left h1]
  have h2 : ((chunkArray texts batchSize).enum.map fun p => p.2.map (fun t => some (embed t)))
      = (chunkArray texts batchSize).map (fun c => c.map (fun t => some (embed t))) :=
    enumFrom_map_snd (chunkArray texts batchSize) (fun c => c.map (fun t => some (embed t))) 0
  rw [h2, ← List.map_flatten, chunkArray_join texts batchSize hbs]

/-- Witness for C3: three texts in groups of two, with the requests of
each group completing in reverse order. -/
theorem c3_embedBatch_preserves_order_witness :
    (0 < 2 ∧ (∀ g, g < (chunkArray ["aaa", "bb", "c"] 2).length →
       ∀ j, j < ((chunkArray ["aaa", "bb", "c"] 2).getD g []).length → j ∈ [1, 0])) ∧
    embedBatch String.length 2 (fun _ => [1, 0]) ["aaa", "bb", "c"] =
      ["aaa", "bb", "c"].map (fun t => some t.length) :=
  ⟨⟨by decide, by decide⟩,
    c3_embedBatch_preserves_order String.length 2 (fun _ => [1, 0]) ["aaa", "bb", "c"]
      (by decide) (by decide)⟩

/-! ## Concept clustering (kMeansClustering and friends)

Vectors are `List ℚ`.  The Euclidean distance of the source needs a real
square root, and the labeling/keyword helpers are string processing that
no claim touches, so `KMeansEnv` abstracts: the distance function, the
stream of `Math.random()` draws, and the two labeling helpers.  Every
theorem below holds for every environment, in particular for the one the
source instantiates. -/

/-- Chunk data needed for clustering (`ChunkForClustering`). -/
structure ChunkForClustering where
  id : String
  content : String
  filepath : String
  embedding : List ℚ
  symbolName : Option String
  symbolType : Option String
deriving DecidableEq

/-- A discovered concept cluster (`ConceptCluster`). -/
structure ConceptCluster where
  id : ℕ
  label : String
  size : ℕ
  representativeChunks : List String
  centroid : List ℚ
  keywords : List String
deriving DecidableEq

/-- Result of the clustering operation (`ClusteringResult`); the JS
`Map<string, number>` of assignments is an insertion-ordered association
list (see `mapSet`/`mapGet`). -/
structure ClusteringResult where
  clusterCount : ℕ
  clusters : List ConceptCluster
  assignments : List (String × ℕ)
deriving DecidableEq

/-- Options of the clustering operation (`ClusteringOptions`); a `none`
field is an omitted option, defaulted inside `kMeansClustering` exactly
as the destructuring defaults of the source. -/
structure ClusteringOptions where
  numClusters : Option ℕ
  maxIterations : Option ℕ
  convergenceThreshold : Option ℚ
  numRepresentatives : Option ℕ
deriving DecidableEq

/-- All options omitted. -/
def optsDefault : ClusteringOptions := ⟨none, none, none, none⟩

/-- `Map.set`: overwrite in place when the key exists (keeping its
position, as JS insertion order does), else append. -/
def mapSet (m : List (String × ℕ)) (k : String) (v : ℕ) : List (String × ℕ) :=
  match m with
  | [] => [(k, v)]
  | (a, b) :: t => if a = k then (a, v) :: t else (a, b) :: mapSet t k v

/-- `Map.get`: the value at the first (only) entry with the key. -/
def mapGet (m : List (String × ℕ)) (k : String) : Option ℕ :=
  match m with
  | [] => none
  | (a, b) :: t => if a = k then some b else mapGet t k

/-- `Map<number, number>.get` for the id renumbering map. -/
def lookupNat (m : List (ℕ × ℕ)) (k : ℕ) : Option ℕ :=
  match m with
  | [] => none
  | (a, b) :: t => if a = k then some b else lookupNat t k

/-- Environment of the clustering code: `dist` stands for
`euclideanDistance`, `randInit c` is the `Math.random()` draw used when
choosing centroid `c` in k-means++, `randReseed it c` the draw used when
reseeding empty cluster `c` at iteration `it`, and `label`/`keywords`
stand for `generateClusterLabel`/`extractKeywords`. -/
structure KMeansEnv where
  dist : List ℚ → List ℚ → ℚ
  randInit : ℕ → ℚ
  randReseed : ℕ → ℕ → ℚ
  label : List ChunkForClustering → List ChunkForClustering → String
  keywords : List ChunkForClustering → List String

/-- Translation of `calculateCentroid(vectors)`: the
`Cannot calculate centroid of empty set` throw is the `none` result. -/
def calculateCentroid (vectors : List (List ℚ)) : Option (List ℚ) :=
  match vectors with
  | [] => none
  | v0 :: _ =>
      some ((List.range v0.length).map fun i =>
        (vectors.foldl (fun s vec => s + vec.getD i 0) 0) / (vectors.length : ℚ))

/-- `Math.floor(r * n)` used to pick a random index; for `r ∈ [0,1)` this
lands in `[0, n)`. -/
def jsIdx (r : ℚ) (n : ℕ) : ℕ := (⌊r * (n : ℚ)⌋).toNat

/-- The `let m = Infinity; for ...: if (x < m) m = x` idiom: `none` is the
initial `Infinity`. -/
def foldMinQ (l : List ℚ) : Option ℚ :=
  l.foldl
    (fun acc d =>
      match acc with
      | none => some d
      | some m => if d < m then some d else some m)
    none

/-- Minimum distance from point `x` to the existing centroids (the inner
loop of k-means++); every call site has a non-empty centroid list, so the
`Infinity` placeholder (`getD 0`) is never read. -/
def minDistTo (env : KMeansEnv) (centroids : List (List ℚ)) (x : List ℚ) : ℚ :=
  (foldMinQ (centroids.map (env.dist x))).getD 0

/-- The weighted-selection loop of k-means++: subtract weights from the
running `rand` until it drops to 0; `selectedIdx` keeps its initial 0 if
the loop never breaks. -/
def weightedSelectAux : List ℚ → ℚ → ℕ → Option ℕ
  | [], _, _ => none
  | w :: ws, r, i => if r - w ≤ 0 then some i else weightedSelectAux ws (r - w) (i + 1)

def weightedSelect (ws : List ℚ) (r : ℚ) : ℕ := (weightedSelectAux ws r 0).getD 0

/-- Translation of `initializeCentroidsKMeansPP(embeddings, k)`. -/
def initializeCentroidsKMeansPP (env : KMeansEnv) (embeddings : List (List ℚ)) (k : ℕ) :
    List (List ℚ) :=
  let n := embeddings.length
  let firstIdx := jsIdx (env.randInit 0) n
  (List.range' 1 (k - 1)).foldl
    (fun centroids c =>
      let distances := embeddings.map (fun e =>
        let m := minDistTo env centroids e
        m * m)
      let totalDist := distances.sum
      let r := env.randInit c * totalDist
      let selectedIdx := weightedSelect distances r
      centroids ++ [embeddings.getD selectedIdx []])
    [embeddings.getD firstIdx []]

/-- The assignment step: index of the nearest centroid, the first one in
case of ties, 0 for an empty centroid list (`minDist = Infinity` is the
`none` accumulator). -/
def nearestCluster (env : KMeansEnv) (centroids : List (List ℚ)) (x : List ℚ) : ℕ :=
  ((centroids.enum.foldl
      (fun best p =>
        let d := env.dist x p.2
        match best with
        | none => some (d, p.1)
        | some (m, j) => if d < m then some (d, p.1) else some (m, j))
      none).map Prod.snd).getD 0

/-- One step of the centroid-update fold: recompute the centroid of
cluster `c` from its members, reseeding an empty cluster from a random
data point, and track the maximal centroid shift. -/
def updateCentroidStep (env : KMeansEnv) (embeddings : List (List ℚ))
    (asg : List ℕ) (centroids : List (List ℚ)) (it : ℕ)
    (acc : Option (List (List ℚ) × ℚ)) (c : ℕ) : Option (List (List ℚ) × ℚ) :=
  match acc with
  | none => none
  | some (ncs, maxShift) =>
      let clusterVectors := ((asg.zip embeddings).filter (fun p => p.1 = c)).map (·.2)
      if clusterVectors.isEmpty then
        some (ncs ++ [embeddings.getD (jsIdx (env.randReseed it c) embeddings.length) []],
          maxShift)
      else
        match calculateCentroid clusterVectors with
        | none => none
        | some cen =>
            some (ncs ++ [cen], max maxShift (env.dist (centroids.getD c []) cen))

/-- The update step of one Lloyd iteration, over all `k` clusters. -/
def updateCentroids (env : KMeansEnv) (embeddings : List (List ℚ)) (k : ℕ)
    (asg : List ℕ) (centroids : List (List ℚ)) (it : ℕ) :
    Option (List (List ℚ) × ℚ) :=
  (List.range k).foldl (updateCentroidStep env embeddings asg centroids it) (some ([], 0))

/-- The Lloyd iteration of `kMeansClustering`, with the iteration cap as
structural fuel: stop when the assignments did not change, or when the
maximal centroid shift falls below the threshold, or when the fuel
(`maxIterations`) runs out. -/
def lloydLoop (env : KMeansEnv) (embeddings : List (List ℚ)) (k : ℕ) (threshold : ℚ) :
    ℕ → ℕ → List ℕ → List (List ℚ) → Option (List ℕ × List (List ℚ))
  | 0, _, asg, centroids => some (asg, centroids)
  | fuel + 1, it, asg, centroids =>
      let newA := embeddings.map (nearestCluster env centroids)
      if newA = asg then some (newA, centroids)
      else
        match updateCentroids env embeddings k newA centroids it with
        | none => none
        | some (ncs, maxShift) =>
            if maxShift < threshold then some (newA, ncs)
            else lloydLoop env embeddings k threshold fuel (it + 1) newA ncs

/-- Stable insertion sort: `lt x y` means `x` must come strictly before
`y`; an element inserted later goes after all equal-key elements, which is
exactly the order JS `Array.prototype.sort` (stable, ES2019) produces for
a consistent comparator. -/
def insertByLt {α : Type} (lt : α → α → Bool) (x : α) : List α → List α
  | [] => [x]
  | y :: ys => if lt x y then x :: y :: ys else y :: insertByLt lt x ys

def stableSortByLt {α : Type} (lt : α → α → Bool) (l : List α) : List α :=
  l.foldl (fun acc x => insertByLt lt x acc) []

/-- `Math.ceil(Math.sqrt(a))` for a natural radicand. -/
def ceilSqrtNat (a : ℕ) : ℕ :=
  if Nat.sqrt a * Nat.sqrt a = a then Nat.sqrt a else Nat.sqrt a + 1

/-- `Math.ceil(Math.sqrt(n / 2))`: the least `m` with `2·m² ≥ n`, which is
the least `m` with `m² ≥ ⌈n/2⌉`. -/
def ceilSqrtHalf (n : ℕ) : ℕ := ceilSqrtNat ((n + 1) / 2)

/-- The destructuring default
`numClusters = Math.max(3, Math.min(20, Math.ceil(Math.sqrt(chunks.length / 2))))`. -/
def defaultNumClusters (n : ℕ) : ℕ := max 3 (min 20 (ceilSqrtHalf n))

/-- `const k = Math.min(numClusters, chunks.length)` with the defaulted
`numClusters`. -/
def kTarget (chunks : List ChunkForClustering) (opts : ClusteringOptions) : ℕ :=
  min (opts.numClusters.getD (defaultNumClusters chunks.length)) chunks.length

/-- The members of cluster `c`: the chunks whose assignment entry is `c`
(`clusterChunks[c]` of the source, built positionally from the
assignment array). -/
def clusterMembers (chunks : List ChunkForClustering) (asg : List ℕ) (c : ℕ) :
    List ChunkForClustering :=
  ((asg.zip chunks).filter (fun p => p.1 = c)).map (·.2)

/-- The cluster object built for a non-empty cluster `c`: representative
chunks are the ones closest to the centroid. -/
def buildCluster (env : KMeansEnv) (chunks : List ChunkForClustering) (asg : List ℕ)
    (centroids : List (List ℚ)) (numRepresentatives : ℕ) (c : ℕ) : ConceptCluster :=
  let chunksInCluster := clusterMembers chunks asg c
  let sortedByDistance := stableSortByLt
    (fun a b => env.dist a.embedding (centroids.getD c []) <
      env.dist b.embedding (centroids.getD c [])) chunksInCluster
  let representatives := sortedByDistance.take numRepresentatives
  { id := c
    label := env.label chunksInCluster representatives
    size := chunksInCluster.length
    representativeChunks := representatives.map (·.id)
    centroid := centroids.getD c []
    keywords := env.keywords chunksInCluster }

/-- The "Build cluster results" section of `kMeansClustering`: per-cluster
member collection, representative selection, the assignment map, the sort
by descending size, the renumbering to 0..count−1 and the assignment-map
update. -/
def finalizeClusters (env : KMeansEnv) (chunks : List ChunkForClustering) (k : ℕ)
    (numRepresentatives : ℕ) (asg : List ℕ) (centroids : List (List ℚ)) :
    ClusteringResult :=
  let assignments := (asg.zip chunks).foldl (fun m p => mapSet m p.2.id p.1) []
  let clusters := (List.range k).foldl
    (fun (acc : List ConceptCluster) c =>
      if (clusterMembers chunks asg c).isEmpty then acc
      else acc ++ [buildCluster env chunks asg centroids numRepresentatives c])
    []
  let sorted := stableSortByLt (fun (a b : ConceptCluster) => b.size < a.size) clusters
  let idMapping := sorted.enum.map (fun p => (p.2.id, p.1))
  let renumbered := sorted.enum.map (fun p => { p.2 with id := p.1 })
  let newAssignments := assignments.map (fun kv =>
    match lookupNat idMapping kv.2 with
    | some nid => (kv.1, nid)
    | none => kv)
  { clusterCount := renumbered.length, clusters := renumbered,
    assignments := newAssignments }

/-- Translation of `kMeansClustering(chunks, options)`; `none` is a thrown
error (the unreachable empty-centroid throw, see c9). -/
def kMeansClustering (env : KMeansEnv) (chunks : List ChunkForClustering)
    (options : ClusteringOptions) : Option ClusteringResult :=
  let maxIterations := options.maxIterations.getD 100
  let numRepresentatives := options.numRepresentatives.getD 3
  let convergenceThreshold := options.convergenceThreshold.getD (1/1000)
  if chunks.isEmpty then
    some { clusterCount := 0, clusters := [], assignments := [] }
  else
    let k := kTarget chunks options
    if k ≤ 1 then
      match calculateCentroid (chunks.map (·.embedding)) with
      | none => none
      | some centroid =>
          some { clusterCount := 1
                 clusters := [{ id := 0
                                label := env.label chunks (chunks.take numRepresentatives)
                                size := chunks.length
                                representativeChunks :=
                                  (chunks.take numRepresentatives).map (·.id)
                                centroid := centroid
                                keywords := env.keywords chunks }]
                 assignments := chunks.foldl (fun m c => mapSet m c.id 0) [] }
    else
      let embeddings := chunks.map (·.embedding)
      let centroids0 := initializeCentroidsKMeansPP env embeddings k
      match lloydLoop env embeddings k convergenceThreshold maxIterations 0
          (List.replicate chunks.length 0) centroids0 with
      | none => none
      | some (asg, centroids) =>
          some (finalizeClusters env chunks k numRepresentatives asg centroids)

/-- Translation of `calculateSilhouetteScore(chunks, assignments,
clusters)`, abstracted over the distance function like the rest of the
module. -/
def calculateSilhouetteScore (dist : List ℚ → List ℚ → ℚ)
    (chunks : List ChunkForClustering) (assignments : List (String × ℕ))
    (clusters : List ConceptCluster) : ℚ :=
  if clusters.length ≤ 1 ∨ chunks.length ≤ 1 then 0
  else
    let scores := chunks.filterMap (fun chunk =>
      match mapGet assignments chunk.id with
      | none => none
      | some clusterId =>
          let intra := chunks.filter (fun o =>
            !(o.id = chunk.id : Bool) && (mapGet assignments o.id == some clusterId))
          let a := if 0 < intra.length
            then (intra.map (fun o => dist chunk.embedding o.embedding)).sum
              / (intra.length : ℚ)
            else 0
          let interAvgs := clusters.filterMap (fun oc =>
            if oc.id = clusterId then none
            else
              let members := chunks.filter (fun o =>
                mapGet assignments o.id == some oc.id)
              if 0 < members.length
              then some ((members.map (fun o => dist chunk.embedding o.embedding)).sum
                / (members.length : ℚ))
              else none)
          let b := (foldMinQ interAvgs).getD 0
          let maxAB := max a b
          some (if 0 < maxAB then (b - a) / maxAB else 0))
    if 0 < scores.length then scores.sum / (scores.length : ℚ) else 0

/-- C7: the silhouette score is 0 whenever there are fewer than 2 clusters
or fewer than 2 chunks. -/
theorem c7_silhouette_degenerate (dist : List ℚ → List ℚ → ℚ)
    (chunks : List ChunkForClustering) (assignments : List (String × ℕ))
    (clusters : List ConceptCluster)
    (h : clusters.length ≤ 1 ∨ chunks.length ≤ 1) :
    calculateSilhouetteScore dist chunks assignments clusters = 0 := by
  unfold calculateSilhouetteScore
  rw [if_pos h]

/-- Witness for C7 with no chunks and no clusters. -/
theorem c7_silhouette_degenerate_witness :
    ([] : List ConceptCluster).length ≤ 1 ∧
    calculateSilhouetteScore (fun _ _ => 0) [] [] [] = 0 :=
  ⟨by decide, c7_silhouette_degenerate (fun _ _ => 0) [] [] [] (Or.inl (by decide))⟩

lemma ceilSqrtNat_le_iff (a m : ℕ) : ceilSqrtNat a ≤ m ↔ a ≤ m * m := by
  unfold ceilSqrtNat
  by_cases h : Nat.sqrt a * Nat.sqrt a = a
  · rw [if_pos h]
    constructor
    · intro hm
      calc a = Nat.sqrt a * Nat.sqrt a := h.symm
        _ ≤ m * m := Nat.mul_le_mul hm hm
    · intro hm
      calc Nat.sqrt a ≤ Nat.sqrt (m * m) := Nat.sqrt_le_sqrt hm
        _ = m := Nat.sqrt_eq m
  · rw [if_neg h]
    constructor
    · intro hm
      exact Nat.le_of_lt (Nat.lt_of_lt_of_le (Nat.lt_succ_sqrt a) (Nat.mul_le_mul hm hm))
    · intro hm
      by_contra hcon
      have h2 : m ≤ Nat.sqrt a := by omega
      have h3 : m * m ≤ Nat.sqrt a * Nat.sqrt a := Nat.mul_le_mul h2 h2
      exact h (le_antisymm (Nat.sqrt_le a) (le_trans hm h3))

lemma ceilSqrtHalf_le_iff (n m : ℕ) : ceilSqrtHalf n ≤ m ↔ n ≤ 2 * (m * m) := by
  rw [ceilSqrtHalf, ceilSqrtNat_le_iff]
  omega

lemma ceilSqrtHalf_eq_ceil_sqrt (n : ℕ) :
    ceilSqrtHalf n = ⌈Real.sqrt ((n : ℝ) / 2)⌉₊ := by
  have key : ∀ m : ℕ, ⌈Real.sqrt ((n : ℝ) / 2)⌉₊ ≤ m ↔ n ≤ 2 * (m * m) := by
    intro m
    rw [Nat.ceil_le, Real.sqrt_le_left (by positivity : (0:ℝ) ≤ (m : ℕ))]
    rw [div_le_iff (by norm_num : (0:ℝ) < 2)]
    constructor
    · intro hr
      exact_mod_cast calc ((n : ℝ)) ≤ (m:ℝ) ^ 2 * 2 := hr
        _ = ((2 * (m * m) : ℕ) : ℝ) := by push_cast; ring
    · intro hr
      calc ((n : ℝ)) ≤ ((2 * (m * m) : ℕ) : ℝ) := by exact_mod_cast hr
        _ = (m:ℝ) ^ 2 * 2 := by push_cast; ring
  have h1 : ceilSqrtHalf n ≤ ⌈Real.sqrt ((n : ℝ) / 2)⌉₊ := by
    rw [ceilSqrtHalf_le_iff, ← key]
  have h2 : ⌈Real.sqrt ((n : ℝ) / 2)⌉₊ ≤ ceilSqrtHalf n := by
    rw [key, ← ceilSqrtHalf_le_iff]
  omega

/-- C5: with no `numClusters` option and a non-empty chunk list of length
`n`, the cluster-count target that `kMeansClustering` uses is
`min (max 3 (min 20 ⌈√(n/2)⌉)) n`. -/
theorem c5_default_cluster_count (chunks : List ChunkForClustering)
    (opts : ClusteringOptions) (_hne : chunks ≠ []) (hnc : opts.numClusters = none) :
    kTarget chunks opts =
      min (max 3 (min 20 (⌈Real.sqrt ((chunks.length : ℝ) / 2)⌉₊))) chunks.length := by
  rw [kTarget, hnc, Option.getD_none, defaultNumClusters, ceilSqrtHalf_eq_ceil_sqrt]

/-- A chunk with the given id and embedding (contents irrelevant to the
clustering claims). -/
def chunkW (i : String) (e : List ℚ) : ChunkForClustering :=
  ⟨i, "", "", e, none, none⟩

/-- Witness for C5 at a concrete chunk list of length 2
(`⌈√1⌉ = 1`, clamped to 3, capped at 2). -/
theorem c5_default_cluster_count_witness :
    (chunkW "a" [0] :: [chunkW "b" [1]] ≠ [] ∧ optsDefault.numClusters = none) ∧
    kTarget (chunkW "a" [0] :: [chunkW "b" [1]]) optsDefault =
      min (max 3 (min 20
        (⌈Real.sqrt (((chunkW "a" [0] :: [chunkW "b" [1]]).length : ℝ) / 2)⌉₊)))
        (chunkW "a" [0] :: [chunkW "b" [1]]).length :=
  ⟨⟨by decide, rfl⟩,
    c5_default_cluster_count (chunkW "a" [0] :: [chunkW "b" [1]]) optsDefault
      (by decide) rfl⟩

lemma calculateCentroid_ne_none (v : List (List ℚ)) (h : v ≠ []) :
    ∃ c, calculateCentroid v = some c := by
  cases v with
  | nil => exact absurd rfl h
  | cons a t => exact ⟨_, rfl⟩

lemma updateCentroidStep_some (env : KMeansEnv) (embeddings : List (List ℚ))
    (asg : List ℕ) (centroids : List (List ℚ)) (it : ℕ)
    (p : List (List ℚ) × ℚ) (c : ℕ) :
    ∃ q, updateCentroidStep env embeddings asg centroids it (some p) c = some q := by
  obtain ⟨ncs, maxShift⟩ := p
  by_cases he : (((asg.zip embeddings).filter (fun p => p.1 = c)).map (·.2)).isEmpty
  · simp [updateCentroidStep, he]
  · obtain ⟨cen, hcen⟩ := calculateCentroid_ne_none
      (((asg.zip embeddings).filter (fun p => p.1 = c)).map (·.2))
      (fun hnil => he (by rw [hnil]; rfl))
    simp [updateCentroidStep, he, hcen]

lemma updateCentroids_some (env : KMeansEnv) (embeddings : List (List ℚ)) (k : ℕ)
    (asg : List ℕ) (centroids : List (List ℚ)) (it : ℕ) :
    ∃ r, updateCentroids env embeddings k asg centroids it = some r := by
  unfold updateCentroids
  generalize List.range k = l
  suffices aux : ∀ (l : List ℕ) (p : List (List ℚ) × ℚ),
      ∃ r, l.foldl (updateCentroidStep env embeddings asg centroids it) (some p) = some r from
    aux l ([], 0)
  intro l
  induction l with
  | nil => exact fun p => ⟨p, rfl⟩
  | cons c t ih =>
      intro p
      rw [List.foldl_cons]
      obtain ⟨q, hq⟩ := updateCentroidStep_some env embeddings asg centroids it p c
      rw [hq]
      exact ih q

lemma lloydLoop_some (env : KMeansEnv) (embeddings : List (List ℚ)) (k : ℕ)
    (threshold : ℚ) :
    ∀ (fuel it : ℕ) (asg : List ℕ) (centroids : List (List ℚ)),
      ∃ r, lloydLoop env embeddings k threshold fuel it asg centroids = some r
  | 0, _, asg, centroids => ⟨(asg, centroids), rfl⟩
  | fuel + 1, it, asg, centroids => by
      rw [lloydLoop]
      by_cases hch : embeddings.map (nearestCluster env centroids) = asg
      · exact ⟨_, by rw [if_pos hch]⟩
      · rw [if_neg hch]
        obtain ⟨⟨ncs, maxShift⟩, hup⟩ := updateCentroids_some env embeddings k
          (embeddings.map (nearestCluster env centroids)) centroids it
        rw [hup]
        by_cases hsh : maxShift < threshold
        · simp [hsh]
        · simp only [hsh, if_false]
          exact lloydLoop_some env embeddings k threshold fuel (it + 1) _ ncs

/-! ### Exception-faithful refinement of the clustering pipeline (C9)

`KMeansEnv.dist` above is a total function, which is adequate for the
invariant claims: they condition on a returned result and hold for every
distance function.  The source `euclideanDistance`, however, throws
`Vectors must have same length` when its two arguments differ in
dimension, and that throw is reachable from `kMeansClustering` when the
input embeddings have mixed dimensions.  The definitions below repeat
the translation with an `Option`-valued distance — `none` standing for
that throw, which then propagates to the caller like a JS exception.
The suffix `E` marks the exception-faithful versions; each mirrors its
total counterpart line by line, adding only the propagation of `none`. -/

structure KMeansEnvE where
  dist : List ℚ → List ℚ → Option ℚ
  randInit : ℕ → ℚ
  randReseed : ℕ → ℕ → ℚ
  label : List ChunkForClustering → List ChunkForClustering → String
  keywords : List ChunkForClustering → List String

/-- `centroids.map (dist x ·)` with a throwing distance: the first throw
aborts the whole computation. -/
def mapDistE (env : KMeansEnvE) (x : List ℚ) : List (List ℚ) → Option (List ℚ)
  | [] => some []
  | c :: cs =>
      match env.dist x c with
      | none => none
      | some d =>
          match mapDistE env x cs with
          | none => none
          | some ds => some (d :: ds)

/-- `minDistTo` with a throwing distance. -/
def minDistToE (env : KMeansEnvE) (centroids : List (List ℚ)) (x : List ℚ) :
    Option ℚ :=
  (mapDistE env x centroids).map (fun ds => (foldMinQ ds).getD 0)

/-- The squared minimum distances of each embedding to the current
centroids (the `distances` array of the k-means++ loop), aborting at the
first throw. -/
def sqMinDistsE (env : KMeansEnvE) (centroids : List (List ℚ)) :
    List (List ℚ) → Option (List ℚ)
  | [] => some []
  | e :: es =>
      match minDistToE env centroids e with
      | none => none
      | some m =>
          match sqMinDistsE env centroids es with
          | none => none
          | some ms => some (m * m :: ms)

/-- One step of the k-means++ fold with a throwing distance. -/
def initStepE (env : KMeansEnvE) (embeddings : List (List ℚ))
    (acc : Option (List (List ℚ))) (c : ℕ) : Option (List (List ℚ)) :=
  match acc with
  | none => none
  | some centroids =>
      match sqMinDistsE env centroids embeddings with
      | none => none
      | some distances =>
          let totalDist := distances.sum
          let r := env.randInit c * totalDist
          let selectedIdx := weightedSelect distances r
          some (centroids ++ [embeddings.getD selectedIdx []])

/-- `initializeCentroidsKMeansPP` with a throwing distance. -/
def initializeCentroidsKMeansPPE (env : KMeansEnvE) (embeddings : List (List ℚ))
    (k : ℕ) : Option (List (List ℚ)) :=
  let n := embeddings.length
  let firstIdx := jsIdx (env.randInit 0) n
  (List.range' 1 (k - 1)).foldl (initStepE env embeddings)
    (some [embeddings.getD firstIdx []])

/-- One step of the nearest-centroid fold with a throwing distance: the
outer `none` is the propagated throw, the inner `none` the initial
`Infinity`. -/
def nearestStepE (env : KMeansEnvE) (x : List ℚ)
    (acc : Option (Option (ℚ × ℕ))) (p : ℕ × List ℚ) :
    Option (Option (ℚ × ℕ)) :=
  match acc with
  | none => none
  | some best =>
      match env.dist x p.2 with
      | none => none
      | some d =>
          some (match best with
            | none => some (d, p.1)
            | some (m, j) => if d < m then some (d, p.1) else some (m, j))

/-- `nearestCluster` with a throwing distance. -/
def nearestClusterE (env : KMeansEnvE) (centroids : List (List ℚ)) (x : List ℚ) :
    Option ℕ :=
  (centroids.enum.foldl (nearestStepE env x) (some none)).map
    (fun best => (best.map Prod.snd).getD 0)

/-- The assignment step of one Lloyd iteration over all embeddings,
aborting at the first throw. -/
def asgE (env : KMeansEnvE) (centroids : List (List ℚ)) :
    List (List ℚ) → Option (List ℕ)
  | [] => some []
  | e :: es =>
      match nearestClusterE env centroids e with
      | none => none
      | some j =>
          match asgE env centroids es with
          | none => none
          | some js => some (j :: js)

/-- `updateCentroidStep` with a throwing distance. -/
def updateCentroidStepE (env : KMeansEnvE) (embeddings : List (List ℚ))
    (asg : List ℕ) (centroids : List (List ℚ)) (it : ℕ)
    (acc : Option (List (List ℚ) × ℚ)) (c : ℕ) : Option (List (List ℚ) × ℚ) :=
  match acc with
  | none => none
  | some (ncs, maxShift) =>
      let clusterVectors := ((asg.zip embeddings).filter (fun p => p.1 = c)).map (·.2)
      if clusterVectors.isEmpty then
        some (ncs ++ [embeddings.getD (jsIdx (env.randReseed it c) embeddings.length) []],
          maxShift)
      else
        match calculateCentroid clusterVectors with
        | none => none
        | some cen =>
            match env.dist (centroids.getD c []) cen with
            | none => none
            | some shift => some (ncs ++ [cen], max maxShift shift)

/-- `updateCentroids` with a throwing distance. -/
def updateCentroidsE (env : KMeansEnvE) (embeddings : List (List ℚ)) (k : ℕ)
    (asg : List ℕ) (centroids : List (List ℚ)) (it : ℕ) :
    Option (List (List ℚ) × ℚ) :=
  (List.range k).foldl (updateCentroidStepE env embeddings asg centroids it)
    (some ([], 0))

/-- `lloydLoop` with a throwing distance. -/
def lloydLoopE (env : KMeansEnvE) (embeddings : List (List ℚ)) (k : ℕ)
    (threshold : ℚ) :
    ℕ → ℕ → List ℕ → List (List ℚ) → Option (List ℕ × List (List ℚ))
  | 0, _, asg, centroids => some (asg, centroids)
  | fuel + 1, it, asg, centroids =>
      match asgE env centroids embeddings with
      | none => none
      | some newA =>
          if newA = asg then some (newA, centroids)
          else
            match updateCentroidsE env embeddings k newA centroids it with
            | none => none
            | some (ncs, maxShift) =>
                if maxShift < threshold then some (newA, ncs)
                else lloydLoopE env embeddings k threshold fuel (it + 1) newA ncs

/-- Stable insertion sort whose comparator may throw. -/
def insertByLtE {α : Type} (lt : α → α → Option Bool) (x : α) :
    List α → Option (List α)
  | [] => some [x]
  | y :: ys =>
      match lt x y with
      | none => none
      | some true => some (x :: y :: ys)
      | some false =>
          match insertByLtE lt x ys with
          | none => none
          | some zs => some (y :: zs)

/-- One step of the throwing insertion-sort fold. -/
def sortStepE {α : Type} (lt : α → α → Option Bool)
    (acc : Option (List α)) (x : α) : Option (List α) :=
  match acc with
  | none => none
  | some ys => insertByLtE lt x ys

def stableSortByLtE {α : Type} (lt : α → α → Option Bool) (l : List α) :
    Option (List α) :=
  l.foldl (sortStepE lt) (some [])

/-- The representative-sort comparator: it compares the distances of two
chunks to the centroid `c0` and throws when either distance does. -/
def distCmpE (env : KMeansEnvE) (c0 : List ℚ) (a b : ChunkForClustering) :
    Option Bool :=
  match env.dist a.embedding c0, env.dist b.embedding c0 with
  | some da, some db => some (decide (da < db))
  | _, _ => none

/-- `buildCluster` with a throwing distance: the representative sort
compares distances to the centroid and may throw inside the comparator. -/
def buildClusterE (env : KMeansEnvE) (chunks : List ChunkForClustering)
    (asg : List ℕ) (centroids : List (List ℚ)) (numRepresentatives : ℕ)
    (c : ℕ) : Option ConceptCluster :=
  let chunksInCluster := clusterMembers chunks asg c
  match stableSortByLtE (distCmpE env (centroids.getD c [])) chunksInCluster with
  | none => none
  | some sortedByDistance =>
      let representatives := sortedByDistance.take numRepresentatives
      some { id := c
             label := env.label chunksInCluster representatives
             size := chunksInCluster.length
             representativeChunks := representatives.map (·.id)
             centroid := centroids.getD c []
             keywords := env.keywords chunksInCluster }

/-- One step of the cluster-building fold with a throwing distance. -/
def clustersFoldStepE (env : KMeansEnvE) (chunks : List ChunkForClustering)
    (asg : List ℕ) (centroids : List (List ℚ)) (numRepresentatives : ℕ)
    (acc : Option (List ConceptCluster)) (c : ℕ) : Option (List ConceptCluster) :=
  match acc with
  | none => none
  | some cls =>
      if (clusterMembers chunks asg c).isEmpty then some cls
      else
        match buildClusterE env chunks asg centroids numRepresentatives c with
        | none => none
        | some cl => some (cls ++ [cl])

/-- `finalizeClusters` with a throwing distance. -/
def finalizeClustersE (env : KMeansEnvE) (chunks : List ChunkForClustering)
    (k : ℕ) (numRepresentatives : ℕ) (asg : List ℕ)
    (centroids : List (List ℚ)) : Option ClusteringResult :=
  let assignments := (asg.zip chunks).foldl (fun m p => mapSet m p.2.id p.1) []
  match (List.range k).foldl
      (clustersFoldStepE env chunks asg centroids numRepresentatives)
      (some []) with
  | none => none
  | some clusters =>
      let sorted := stableSortByLt (fun (a b : ConceptCluster) => b.size < a.size)
        clusters
      let idMapping := sorted.enum.map (fun p => (p.2.id, p.1))
      let renumbered := sorted.enum.map (fun p => { p.2 with id := p.1 })
      let newAssignments := assignments.map (fun kv =>
        match lookupNat idMapping kv.2 with
        | some nid => (kv.1, nid)
        | none => kv)
      some ⟨renumbered.length, renumbered, newAssignments⟩

/-- `kMeansClustering` with a throwing distance: `none` is any thrown
error, including the `Vectors must have same length` throw of
`euclideanDistance`. -/
def kMeansClusteringE (env : KMeansEnvE) (chunks : List ChunkForClustering)
    (options : ClusteringOptions) : Option ClusteringResult :=
  let maxIterations := options.maxIterations.getD 100
  let numRepresentatives := options.numRepresentatives.getD 3
  let convergenceThreshold := options.convergenceThreshold.getD (1/1000)
  if chunks.isEmpty then
    some { clusterCount := 0, clusters := [], assignments := [] }
  else
    let k := kTarget chunks options
    if k ≤ 1 then
      match calculateCentroid (chunks.map (·.embedding)) with
      | none => none
      | some centroid =>
          some { clusterCount := 1
                 clusters := [{ id := 0
                                label := env.label chunks (chunks.take numRepresentatives)
                                size := chunks.length
                                representativeChunks :=
                                  (chunks.take numRepresentatives).map (·.id)
                                centroid := centroid
                                keywords := env.keywords chunks }]
                 assignments := chunks.foldl (fun m c => mapSet m c.id 0) [] }
    else
      let embeddings := chunks.map (·.embedding)
      match initializeCentroidsKMeansPPE env embeddings k with
      | none => none
      | some centroids0 =>
          match lloydLoopE env embeddings k convergenceThreshold maxIterations 0
              (List.replicate chunks.length 0) centroids0 with
          | none => none
          | some (asg, centroids) =>
              finalizeClustersE env chunks k numRepresentatives asg centroids

/-- A fold whose step sends defined states to defined states keeps a
defined state defined. -/
lemma foldl_some_of_step {α β : Type} (f : Option β → α → Option β)
    (hf : ∀ b a, ∃ c, f (some b) a = some c) :
    ∀ (l : List α) (b : β), ∃ c, l.foldl f (some b) = some c
  | [], b => ⟨b, rfl⟩
  | a :: l, b => by
      rw [List.foldl_cons]
      obtain ⟨c, hc⟩ := hf b a
      rw [hc]
      exact foldl_some_of_step f hf l c

lemma mapDistE_some (env : KMeansEnvE)
    (hdist : ∀ a b, ∃ q, env.dist a b = some q) (x : List ℚ) :
    ∀ cs, ∃ ds, mapDistE env x cs = some ds
  | [] => ⟨[], rfl⟩
  | c :: cs => by
      obtain ⟨q, hq⟩ := hdist x c
      obtain ⟨ds, hds⟩ := mapDistE_some env hdist x cs
      exact ⟨q :: ds, by simp only [mapDistE, hq, hds]⟩

lemma minDistToE_some (env : KMeansEnvE)
    (hdist : ∀ a b, ∃ q, env.dist a b = some q) (centroids : List (List ℚ))
    (x : List ℚ) : ∃ m, minDistToE env centroids x = some m := by
  obtain ⟨ds, hds⟩ := mapDistE_some env hdist x centroids
  exact ⟨_, by rw [minDistToE, hds]; rfl⟩

lemma sqMinDistsE_some (env : KMeansEnvE)
    (hdist : ∀ a b, ∃ q, env.dist a b = some q) (centroids : List (List ℚ)) :
    ∀ es, ∃ ms, sqMinDistsE env centroids es = some ms
  | [] => ⟨[], rfl⟩
  | e :: es => by
      obtain ⟨m, hm⟩ := minDistToE_some env hdist centroids e
      obtain ⟨ms, hms⟩ := sqMinDistsE_some env hdist centroids es
      exact ⟨m * m :: ms, by simp only [sqMinDistsE, hm, hms]⟩

lemma initStepE_some (env : KMeansEnvE)
    (hdist : ∀ a b, ∃ q, env.dist a b = some q) (embeddings : List (List ℚ))
    (centroids : List (List ℚ)) (c : ℕ) :
    ∃ r, initStepE env embeddings (some centroids) c = some r := by
  obtain ⟨ds, hds⟩ := sqMinDistsE_some env hdist centroids embeddings
  exact ⟨_, by simp only [initStepE, hds]; rfl⟩

lemma initializeCentroidsKMeansPPE_some (env : KMeansEnvE)
    (hdist : ∀ a b, ∃ q, env.dist a b = some q) (embeddings : List (List ℚ))
    (k : ℕ) : ∃ cs, initializeCentroidsKMeansPPE env embeddings k = some cs := by
  rw [initializeCentroidsKMeansPPE]
  exact foldl_some_of_step (initStepE env embeddings)
    (initStepE_some env hdist embeddings) (List.range' 1 (k - 1))
    [embeddings.getD (jsIdx (env.randInit 0) embeddings.length) []]

lemma nearestStepE_some (env : KMeansEnvE)
    (hdist : ∀ a b, ∃ q, env.dist a b = some q) (x : List ℚ)
    (b : Option (ℚ × ℕ)) (p : ℕ × List ℚ) :
    ∃ r, nearestStepE env x (some b) p = some r := by
  obtain ⟨q, hq⟩ := hdist x p.2
  exact ⟨_, by simp only [nearestStepE, hq]; rfl⟩

lemma nearestClusterE_some (env : KMeansEnvE)
    (hdist : ∀ a b, ∃ q, env.dist a b = some q) (centroids : List (List ℚ))
    (x : List ℚ) : ∃ j, nearestClusterE env centroids x = some j := by
  obtain ⟨c, hc⟩ := foldl_some_of_step (nearestStepE env x)
    (nearestStepE_some env hdist x) centroids.enum none
  exact ⟨_, by rw [nearestClusterE, hc]; rfl⟩

lemma asgE_some (env : KMeansEnvE)
    (hdist : ∀ a b, ∃ q, env.dist a b = some q) (centroids : List (List ℚ)) :
    ∀ es, ∃ js, asgE env centroids es = some js
  | [] => ⟨[], rfl⟩
  | e :: es => by
      obtain ⟨j, hj⟩ := nearestClusterE_some env hdist centroids e
      obtain ⟨js, hjs⟩ := asgE_some env hdist centroids es
      exact ⟨j :: js, by simp only [asgE, hj, hjs]⟩

lemma updateCentroidStepE_some (env : KMeansEnvE)
    (hdist : ∀ a b, ∃ q, env.dist a b = some q) (embeddings : List (List ℚ))
    (asg : List ℕ) (centroids : List (List ℚ)) (it : ℕ)
    (p : List (List ℚ) × ℚ) (c : ℕ) :
    ∃ q, updateCentroidStepE env embeddings asg centroids it (some p) c = some q := by
  obtain ⟨ncs, maxShift⟩ := p
  by_cases he : (((asg.zip embeddings).filter (fun p => p.1 = c)).map (·.2)).isEmpty
  · simp [updateCentroidStepE, he]
  · obtain ⟨cen, hcen⟩ := calculateCentroid_ne_none
      (((asg.zip embeddings).filter (fun p => p.1 = c)).map (·.2))
      (fun hnil => he (by rw [hnil]; rfl))
    obtain ⟨sh, hsh⟩ := hdist (centroids.getD c []) cen
    rw [List.getD_eq_getElem?_getD] at hsh
    simp [updateCentroidStepE, he, hcen, hsh]

lemma updateCentroidsE_some (env : KMeansEnvE)
    (hdist : ∀ a b, ∃ q, env.dist a b = some q) (embeddings : List (List ℚ))
    (k : ℕ) (asg : List ℕ) (centroids : List (List ℚ)) (it : ℕ) :
    ∃ r, updateCentroidsE env embeddings k asg centroids it = some r := by
  rw [updateCentroidsE]
  exact foldl_some_of_step (updateCentroidStepE env embeddings asg centroids it)
    (fun p c => updateCentroidStepE_some env hdist embeddings asg centroids it p c)
    (List.range k) ([], 0)

lemma lloydLoopE_some (env : KMeansEnvE)
    (hdist : ∀ a b, ∃ q, env.dist a b = some q) (embeddings : List (List ℚ))
    (k : ℕ) (threshold : ℚ) :
    ∀ (fuel it : ℕ) (asg : List ℕ) (centroids : List (List ℚ)),
      ∃ r, lloydLoopE env embeddings k threshold fuel it asg centroids = some r
  | 0, _, asg, centroids => ⟨(asg, centroids), rfl⟩
  | fuel + 1, it, asg, centroids => by
      obtain ⟨newA, hA⟩ := asgE_some env hdist centroids embeddings
      simp only [lloydLoopE, hA]
      by_cases hch : newA = asg
      · exact ⟨_, by rw [if_pos hch]⟩
      · rw [if_neg hch]
        obtain ⟨⟨ncs, maxShift⟩, hup⟩ := updateCentroidsE_some env hdist embeddings k
          newA centroids it
        simp only [hup]
        by_cases hsh : maxShift < threshold
        · simp [hsh]
        · simp only [hsh, if_false]
          exact lloydLoopE_some env hdist embeddings k threshold fuel (it + 1) newA ncs

lemma insertByLtE_some {α : Type} (lt : α → α → Option Bool)
    (hlt : ∀ x y, ∃ b, lt x y = some b) (x : α) :
    ∀ l, ∃ r, insertByLtE lt x l = some r
  | [] => ⟨[x], rfl⟩
  | y :: ys => by
      obtain ⟨b, hb⟩ := hlt x y
      obtain ⟨zs, hzs⟩ := insertByLtE_some lt hlt x ys
      cases b with
      | true => exact ⟨_, by simp only [insertByLtE, hb]; rfl⟩
      | false => exact ⟨_, by simp only [insertByLtE, hb, hzs]; rfl⟩

lemma stableSortByLtE_some {α : Type} (lt : α → α → Option Bool)
    (hlt : ∀ x y, ∃ b, lt x y = some b) (l : List α) :
    ∃ r, stableSortByLtE lt l = some r := by
  rw [stableSortByLtE]
  refine foldl_some_of_step (sortStepE lt) ?_ l []
  intro ys x
  obtain ⟨r, hr⟩ := insertByLtE_some lt hlt x ys
  exact ⟨r, by simp only [sortStepE, hr]⟩

lemma distCmpE_some (env : KMeansEnvE)
    (hdist : ∀ a b, ∃ q, env.dist a b = some q) (c0 : List ℚ)
    (a b : ChunkForClustering) : ∃ t, distCmpE env c0 a b = some t := by
  obtain ⟨da, hda⟩ := hdist a.embedding c0
  obtain ⟨db, hdb⟩ := hdist b.embedding c0
  exact ⟨_, by simp only [distCmpE, hda, hdb]; rfl⟩

lemma buildClusterE_some (env : KMeansEnvE)
    (hdist : ∀ a b, ∃ q, env.dist a b = some q) (chunks : List ChunkForClustering)
    (asg : List ℕ) (centroids : List (List ℚ)) (nr : ℕ) (c : ℕ) :
    ∃ cl, buildClusterE env chunks asg centroids nr c = some cl := by
  obtain ⟨s, hs⟩ := stableSortByLtE_some (distCmpE env (centroids.getD c []))
    (distCmpE_some env hdist (centroids.getD c [])) (clusterMembers chunks asg c)
  exact ⟨_, by simp only [buildClusterE, hs]; rfl⟩

lemma clustersFoldStepE_some (env : KMeansEnvE)
    (hdist : ∀ a b, ∃ q, env.dist a b = some q) (chunks : List ChunkForClustering)
    (asg : List ℕ) (centroids : List (List ℚ)) (nr : ℕ)
    (cls : List ConceptCluster) (c : ℕ) :
    ∃ r, clustersFoldStepE env chunks asg centroids nr (some cls) c = some r := by
  by_cases he : (clusterMembers chunks asg c).isEmpty
  · exact ⟨cls, by simp [clustersFoldStepE, he]⟩
  · obtain ⟨cl, hcl⟩ := buildClusterE_some env hdist chunks asg centroids nr c
    simp [clustersFoldStepE, he, hcl]

lemma finalizeClustersE_some (env : KMeansEnvE)
    (hdist : ∀ a b, ∃ q, env.dist a b = some q) (chunks : List ChunkForClustering)
    (k : ℕ) (nr : ℕ) (asg : List ℕ) (centroids : List (List ℚ)) :
    ∃ r, finalizeClustersE env chunks k nr asg centroids = some r := by
  obtain ⟨cls, hcls⟩ := foldl_some_of_step
    (clustersFoldStepE env chunks asg centroids nr)
    (fun b a => clustersFoldStepE_some env hdist chunks asg centroids nr b a)
    (List.range k) []
  exact ⟨_, by simp only [finalizeClustersE, hcls]; rfl⟩

/-- Two chunks whose embeddings have different dimensions. -/
def chunksMix : List ChunkForClustering := [chunkW "a" [0], chunkW "b" [0, 0]]

/-- Environment for the mixed-dimension counterexample: the distance is
defined exactly when the two vectors have equal length, which is the
precise throw condition of the source `euclideanDistance`
(`Vectors must have same length`); the value returned on equal lengths
is irrelevant here, since the run aborts at the first mixed-dimension
call. The first k-means++ draw picks index 0. -/
def envMix : KMeansEnvE :=
  ⟨fun a b => if a.length = b.length then some 0 else none,
   fun _ => 0, fun _ _ => 0, fun _ _ => "", fun _ => []⟩

/-- Counterexample to C9 as stated: on two chunks whose embeddings have
dimensions 1 and 2 (default options, so `k = min 3 2 = 2 > 1`), the
k-means++ initialisation computes the distance from the 2-dimensional
embedding to the 1-dimensional first centroid, and the
`Vectors must have same length` throw of `euclideanDistance` fires:
`kMeansClustering` does not return. -/
theorem c9_kmeans_counterexample :
    chunksMix ≠ [] ∧ kMeansClusteringE envMix chunksMix optsDefault = none := by
  refine ⟨by decide, ?_⟩
  have hk : kTarget chunksMix optsDefault = 2 := by decide
  rw [kMeansClusteringE, hk]
  norm_num [chunksMix, chunkW, optsDefault, envMix,
    initializeCentroidsKMeansPPE, initStepE, sqMinDistsE, minDistToE, mapDistE,
    jsIdx, foldMinQ, List.range']

/-- C9 (amended): whenever the distance function is everywhere defined —
in particular whenever all embeddings have the same dimension, so the
`Vectors must have same length` throw of `euclideanDistance` cannot
fire — `kMeansClustering` is total: it returns `some` on every input
(in particular it never reaches the `Cannot calculate centroid of empty
set` throw of `calculateCentroid`), and on the empty chunk list it
returns 0 clusters and an empty assignment map. As stated, totality on
all inputs fails: see `c9_kmeans_counterexample`. -/
theorem c9_kmeans_total (env : KMeansEnvE) (chunks : List ChunkForClustering)
    (options : ClusteringOptions)
    (hdist : ∀ a b, ∃ q, env.dist a b = some q) :
    (∃ r, kMeansClusteringE env chunks options = some r) ∧
    (chunks = [] → kMeansClusteringE env chunks options =
      some { clusterCount := 0, clusters := [], assignments := [] }) := by
  constructor
  · unfold kMeansClusteringE
    by_cases hemp : chunks.isEmpty
    · exact ⟨_, by rw [if_pos hemp]⟩
    · simp only [hemp, Bool.false_eq_true, if_false]
      by_cases hk : kTarget chunks options ≤ 1
      · obtain ⟨cen, hcen⟩ := calculateCentroid_ne_none (chunks.map (·.embedding))
          (by simpa [List.isEmpty_iff] using hemp)
        exact ⟨_, by rw [if_pos hk, hcen]⟩
      · rw [if_neg hk]
        obtain ⟨cs0, hcs0⟩ := initializeCentroidsKMeansPPE_some env hdist
          (chunks.map (·.embedding)) (kTarget chunks options)
        obtain ⟨⟨asg, cents⟩, hl⟩ := lloydLoopE_some env hdist
          (chunks.map (·.embedding)) (kTarget chunks options)
          (options.convergenceThreshold.getD (1/1000))
          (options.maxIterations.getD 100) 0 (List.replicate chunks.length 0) cs0
        obtain ⟨r, hr⟩ := finalizeClustersE_some env hdist chunks
          (kTarget chunks options) (options.numRepresentatives.getD 3) asg cents
        exact ⟨r, by simp only [hcs0, hl, hr]⟩
  · intro h
    subst h
    rfl

/-- A trivial concrete environment with an everywhere-defined distance. -/
def envWE : KMeansEnvE :=
  ⟨fun _ _ => some 0, fun _ => 0, fun _ _ => 0, fun _ _ => "", fun _ => []⟩

/-- Witness for the amended C9 on a concrete environment whose distance
is everywhere defined, at the empty chunk list. -/
theorem c9_kmeans_total_witness :
    (∀ a b, ∃ q, envWE.dist a b = some q) ∧
    ((∃ r, kMeansClusteringE envWE [] optsDefault = some r) ∧
      (([] : List ChunkForClustering) = [] →
        kMeansClusteringE envWE [] optsDefault =
          some { clusterCount := 0, clusters := [], assignments := [] })) :=
  ⟨fun a b => ⟨0, rfl⟩,
    c9_kmeans_total envWE [] optsDefault (fun a b => ⟨0, rfl⟩)⟩

/-! ### Helper lemmas for the clustering invariants (C4) -/

lemma mapSet_notMem (m : List (String × ℕ)) (k : String) (v : ℕ)
    (h : k ∉ m.map Prod.fst) : mapSet m k v = m ++ [(k, v)] := by
  induction m with
  | nil => rfl
  | cons q t ih =>
      obtain ⟨a, b⟩ := q
      have ha : a ≠ k := by
        intro hak
        exact h (by simp [hak])
      rw [mapSet, if_neg ha, ih (fun hk => h (by simp [hk]))]
      rfl

lemma foldl_mapSet_nodup (qs : List (String × ℕ)) (hnd : (qs.map Prod.fst).Nodup) :
    qs.foldl (fun m q => mapSet m q.1 q.2) [] = qs := by
  suffices aux : ∀ (qs acc : List (String × ℕ)),
      ((acc ++ qs).map Prod.fst).Nodup →
      qs.foldl (fun m q => mapSet m q.1 q.2) acc = acc ++ qs by
    simpa using aux qs [] (by simpa using hnd)
  intro qs
  induction qs with
  | nil => intro acc _; simp
  | cons q t ih =>
      intro acc hacc
      obtain ⟨k, v⟩ := q
      rw [List.foldl_cons]
      have hk : k ∉ acc.map Prod.fst := by
        intro hmem
        have : ¬((acc.map Prod.fst).Disjoint (((k, v) :: t).map Prod.fst)) := by
          intro hdis
          exact hdis hmem (by simp)
        rw [List.map_append] at hacc
        exact this (List.disjoint_of_nodup_append hacc)
      rw [mapSet_notMem acc k v hk]
      have := ih (acc ++ [(k, v)]) (by simpa using hacc)
      simpa using this

lemma mapGet_of_mem_nodup (qs : List (String × ℕ)) (hnd : (qs.map Prod.fst).Nodup)
    (k : String) (v : ℕ) (h : (k, v) ∈ qs) : mapGet qs k = some v := by
  induction qs with
  | nil => cases h
  | cons q t ih =>
      obtain ⟨a, b⟩ := q
      rw [List.map_cons, List.nodup_cons] at hnd
      rcases List.mem_cons.mp h with heq | hmem
      · obtain ⟨rfl, rfl⟩ := Prod.mk.injEq .. ▸ heq
        exact (by rw [mapGet, if_pos rfl] : mapGet ((k, v) :: t) k = some v)
      · have hkmem : k ∈ t.map Prod.fst := by
          simpa using List.mem_map_of_mem Prod.fst hmem
        have ha : a ≠ k := fun heq2 => hnd.1 (by rw [heq2]; exact hkmem)
        rw [mapGet, if_neg ha]
        exact ih hnd.2 hmem

lemma lookupNat_of_mem_nodup (qs : List (ℕ × ℕ)) (hnd : (qs.map Prod.fst).Nodup)
    (k v : ℕ) (h : (k, v) ∈ qs) : lookupNat qs k = some v := by
  induction qs with
  | nil => cases h
  | cons q t ih =>
      obtain ⟨a, b⟩ := q
      rw [List.map_cons, List.nodup_cons] at hnd
      rcases List.mem_cons.mp h with heq | hmem
      · obtain ⟨rfl, rfl⟩ := Prod.mk.injEq .. ▸ heq
        exact (by rw [lookupNat, if_pos rfl] : lookupNat ((k, v) :: t) k = some v)
      · have hkmem : k ∈ t.map Prod.fst := by
          simpa using List.mem_map_of_mem Prod.fst hmem
        have ha : a ≠ k := fun heq2 => hnd.1 (by rw [heq2]; exact hkmem)
        rw [lookupNat, if_neg ha]
        exact ih hnd.2 hmem

lemma insertByLt_perm {α : Type} (lt : α → α → Bool) (x : α) (l : List α) :
    (insertByLt lt x l).Perm (x :: l) := by
  induction l with
  | nil => exact List.Perm.refl _
  | cons y ys ih =>
      rw [insertByLt]
      by_cases h : lt x y
      · rw [if_pos h]
      · rw [if_neg h]
        exact (ih.cons y).trans (List.Perm.swap x y ys)

lemma stableSortByLt_perm {α : Type} (lt : α → α → Bool) (l : List α) :
    (stableSortByLt lt l).Perm l := by
  suffices aux : ∀ (l acc : List α),
      (l.foldl (fun acc x => insertByLt lt x acc) acc).Perm (acc ++ l) by
    simpa using aux l []
  intro l
  induction l with
  | nil => intro acc; simp
  | cons x t ih =>
      intro acc
      rw [List.foldl_cons]
      refine (ih (insertByLt lt x acc)).trans ?_
      have h1 : (insertByLt lt x acc ++ t).Perm ((x :: acc) ++ t) :=
        (insertByLt_perm lt x acc).append_right t
      refine h1.trans ?_
      simpa using List.perm_middle.symm

lemma insertByLt_sorted_size (x : ConceptCluster) (l : List ConceptCluster)
    (hl : l.Pairwise (fun a b => b.size ≤ a.size)) :
    (insertByLt (fun a b => b.size < a.size) x l).Pairwise (fun a b => b.size ≤ a.size) := by
  induction l with
  | nil => simp [insertByLt]
  | cons y ys ih =>
      rw [List.pairwise_cons] at hl
      rw [insertByLt]
      by_cases h : y.size < x.size
      · rw [if_pos (by simpa using h)]
        refine List.pairwise_cons.mpr ⟨?_, List.pairwise_cons.mpr hl⟩
        intro z hz
        rcases List.mem_cons.mp hz with rfl | hmem
        · omega
        · have := hl.1 z hmem
          omega
      · rw [if_neg (by simpa using h)]
        refine List.pairwise_cons.mpr ⟨?_, ih hl.2⟩
        intro z hz
        have hz2 := (insertByLt_perm (fun a b => b.size < a.size) x ys).mem_iff.mp hz
        rcases List.mem_cons.mp hz2 with rfl | hmem
        · simp at h
          omega
        · exact hl.1 z hmem

lemma stableSortByLt_sorted_size (l : List ConceptCluster) :
    (stableSortByLt (fun a b => b.size < a.size) l).Pairwise
      (fun a b => b.size ≤ a.size) := by
  suffices aux : ∀ (l acc : List ConceptCluster),
      acc.Pairwise (fun a b => b.size ≤ a.size) →
      (l.foldl (fun acc x => insertByLt (fun a b => b.size < a.size) x acc) acc).Pairwise
        (fun a b => b.size ≤ a.size) by
    exact aux l [] (by simp)
  intro l
  induction l with
  | nil => exact fun acc h => h
  | cons x t ih =>
      intro acc hacc
      rw [List.foldl_cons]
      exact ih _ (insertByLt_sorted_size x acc hacc)

lemma foldl_if_append {α β : Type} (l : List α) (p : α → Bool) (f : α → β)
    (acc0 : List β) :
    l.foldl (fun acc x => if p x then acc else acc ++ [f x]) acc0
      = acc0 ++ (l.filter (fun x => !p x)).map f := by
  induction l generalizing acc0 with
  | nil => simp
  | cons x t ih =>
      rw [List.foldl_cons]
      by_cases h : p x
      · rw [if_pos h, ih]
        simp [List.filter_cons, h]
      · rw [if_neg h, ih]
        simp [List.filter_cons, h]

lemma lookupNat_mem (qs : List (ℕ × ℕ)) (k v : ℕ) (h : lookupNat qs k = some v) :
    (k, v) ∈ qs := by
  induction qs with
  | nil => cases h
  | cons q t ih =>
      obtain ⟨a, b⟩ := q
      rw [lookupNat] at h
      by_cases ha : a = k
      · rw [if_pos ha] at h
        obtain rfl := ha
        obtain rfl : b = v := by simpa using h
        exact List.mem_cons_self _ _
      · rw [if_neg ha] at h
        exact List.mem_cons_of_mem _ (ih h)

lemma renumber_map_id (l : List ConceptCluster) (n : ℕ) :
    (((List.enumFrom n l).map fun p => { p.2 with id := p.1 }).map (·.id)) =
      List.range' n l.length := by
  induction l generalizing n with
  | nil => rfl
  | cons x t ih => simp [List.enumFrom, List.range', ih]

lemma renumber_map_size (l : List ConceptCluster) (n : ℕ) :
    (((List.enumFrom n l).map fun p => { p.2 with id := p.1 }).map (·.size)) =
      l.map (·.size) := by
  induction l generalizing n with
  | nil => rfl
  | cons x t ih => simp [List.enumFrom, ih]

lemma foldl_length_step {α β : Type} (step : List α → β → List α)
    (hstep : ∀ cs c, (step cs c).length = cs.length + 1) :
    ∀ (l : List β) (acc : List α), (l.foldl step acc).length = acc.length + l.length := by
  intro l
  induction l with
  | nil => intro acc; simp
  | cons c t ih =>
      intro acc
      rw [List.foldl_cons, ih, hstep]
      simp
      omega

lemma initializeCentroids_length (env : KMeansEnv) (embeddings : List (List ℚ)) (k : ℕ)
    (hk : 1 ≤ k) : (initializeCentroidsKMeansPP env embeddings k).length = k := by
  unfold initializeCentroidsKMeansPP
  rw [foldl_length_step _ (fun cs c => by simp)]
  simp [List.length_range']
  omega

lemma updateCentroidStep_length (env : KMeansEnv) (embeddings : List (List ℚ))
    (asg : List ℕ) (centroids : List (List ℚ)) (it : ℕ)
    (p q : List (List ℚ) × ℚ) (c : ℕ)
    (h : updateCentroidStep env embeddings asg centroids it (some p) c = some q) :
    q.1.length = p.1.length + 1 := by
  obtain ⟨ncs, ms⟩ := p
  rw [updateCentroidStep] at h
  by_cases he : (((asg.zip embeddings).filter (fun p => p.1 = c)).map (·.2)).isEmpty
  · simp only [he, if_true] at h
    obtain rfl := Option.some.inj h
    simp
  · simp only [he, Bool.false_eq_true, if_false] at h
    cases hcen : calculateCentroid (((asg.zip embeddings).filter (fun p => p.1 = c)).map (·.2)) with
    | none => rw [hcen] at h; cases h
    | some cen =>
        rw [hcen] at h
        obtain rfl := Option.some.inj h
        simp

lemma updateCentroids_length (env : KMeansEnv) (embeddings : List (List ℚ)) (k : ℕ)
    (asg : List ℕ) (centroids : List (List ℚ)) (it : ℕ)
    (r : List (List ℚ) × ℚ)
    (h : updateCentroids env embeddings k asg centroids it = some r) :
    r.1.length = k := by
  unfold updateCentroids at h
  suffices aux : ∀ (l : List ℕ) (p r : List (List ℚ) × ℚ),
      l.foldl (updateCentroidStep env embeddings asg centroids it) (some p) = some r →
      r.1.length = p.1.length + l.length by
    have := aux (List.range k) ([], 0) r h
    simpa using this
  intro l
  induction l with
  | nil =>
      intro p r h0
      obtain rfl : p = r := by simpa using h0
      simp
  | cons c t ih =>
      intro p r h0
      rw [List.foldl_cons] at h0
      obtain ⟨q, hq⟩ := updateCentroidStep_some env embeddings asg centroids it p c
      rw [hq] at h0
      have := ih q r h0
      rw [updateCentroidStep_length env embeddings asg centroids it p q c hq] at this
      simp only [List.length_cons]
      omega

lemma nearestCluster_lt (env : KMeansEnv) (centroids : List (List ℚ)) (x : List ℚ)
    (hc : centroids ≠ []) : nearestCluster env centroids x < centroids.length := by
  unfold nearestCluster
  have hmem : ∀ p ∈ centroids.enum, p.1 < centroids.length := by
    intro p hp
    obtain ⟨i, c⟩ := p
    have := List.mk_mem_enum_iff_getElem?.mp hp
    exact (List.getElem?_eq_some_iff.mp this).1
  have haux : ∀ (l : List (ℕ × List ℚ)) (b : Option (ℚ × ℕ)),
      (∀ p ∈ l, p.1 < centroids.length) →
      (∀ q, b = some q → q.2 < centroids.length) →
      (b = none → l ≠ []) →
      ∀ q, l.foldl
          (fun best p =>
            let d := env.dist x p.2
            match best with
            | none => some (d, p.1)
            | some (m, j) => if d < m then some (d, p.1) else some (m, j))
          b = some q → q.2 < centroids.length := by
    intro l
    induction l with
    | nil =>
        intro b _ hb _ q hq
        cases b with
        | none => simp at hq
        | some q0 => exact hb q (by simpa using hq)
    | cons p t ih =>
        intro b hl hb _ q hq
        rw [List.foldl_cons] at hq
        refine ih _ (fun r hr => hl r (List.mem_cons_of_mem p hr)) ?_ ?_ q hq
        · intro q0 hq0
          cases b with
          | none =>
              simp only at hq0
              obtain rfl := Option.some.inj hq0
              exact hl p (List.mem_cons_self p t)
          | some mj =>
              obtain ⟨m, j⟩ := mj
              simp only at hq0
              by_cases hd : env.dist x p.2 < m
              · rw [if_pos hd] at hq0
                obtain rfl := Option.some.inj hq0
                exact hl p (List.mem_cons_self p t)
              · rw [if_neg hd] at hq0
                obtain rfl := Option.some.inj hq0
                exact hb (m, j) rfl
        · intro hnone
          exfalso
          cases b with
          | none => simp at hnone
          | some mj =>
              obtain ⟨m, j⟩ := mj
              simp only at hnone
              by_cases hd : env.dist x p.2 < m
              · rw [if_pos hd] at hnone; cases hnone
              · rw [if_neg hd] at hnone; cases hnone
  have hlen : centroids.enum ≠ [] := by
    intro h0
    apply hc
    have := congrArg List.length h0
    simpa [List.enum_length] using this
  cases hfold : centroids.enum.foldl
      (fun best p =>
        let d := env.dist x p.2
        match best with
        | none => some (d, p.1)
        | some (m, j) => if d < m then some (d, p.1) else some (m, j))
      none with
  | none =>
      exfalso
      -- the fold over a non-empty list starting anywhere is never none
      have : ∀ (l : List (ℕ × List ℚ)) (b : Option (ℚ × ℕ)),
          (b = none → l ≠ []) →
          l.foldl
            (fun best p =>
              let d := env.dist x p.2
              match best with
              | none => some (d, p.1)
              | some (m, j) => if d < m then some (d, p.1) else some (m, j))
            b ≠ none := by
        intro l
        induction l with
        | nil =>
            intro b hne h0
            cases b with
            | none => exact hne rfl rfl
            | some q0 => simp at h0
        | cons p t ih =>
            intro b _ h0
            rw [List.foldl_cons] at h0
            refine ih _ ?_ h0
            intro hstep
            cases b with
            | none => simp at hstep
            | some mj =>
                obtain ⟨m, j⟩ := mj
                simp only at hstep
                by_cases hd : env.dist x p.2 < m
                · rw [if_pos hd] at hstep; cases hstep
                · rw [if_neg hd] at hstep; cases hstep
      exact this centroids.enum none (fun _ => hlen) hfold
  | some q =>
      have := haux centroids.enum none hmem (fun q0 hq0 => by cases hq0)
        (fun _ => hlen) q hfold
      simpa [hfold] using this

lemma lloydLoop_invariant (env : KMeansEnv) (embeddings : List (List ℚ)) (k : ℕ)
    (threshold : ℚ) (hk : 1 ≤ k) :
    ∀ (fuel it : ℕ) (asg : List ℕ) (centroids : List (List ℚ)),
      asg.length = embeddings.length → (∀ a ∈ asg, a < k) → centroids.length = k →
      ∀ asg2 cents2,
        lloydLoop env embeddings k threshold fuel it asg centroids = some (asg2, cents2) →
        asg2.length = embeddings.length ∧ (∀ a ∈ asg2, a < k) := by
  intro fuel
  induction fuel with
  | zero =>
      intro it asg centroids hlen hb _ asg2 cents2 h
      obtain ⟨rfl, rfl⟩ := Prod.mk.injEq .. ▸ Option.some.inj h
      exact ⟨hlen, hb⟩
  | succ fuel ih =>
      intro it asg centroids hlen hb hclen asg2 cents2 h
      rw [lloydLoop] at h
      have hnewlen : (embeddings.map (nearestCluster env centroids)).length
          = embeddings.length := List.length_map _ _
      have hnewb : ∀ a ∈ embeddings.map (nearestCluster env centroids), a < k := by
        intro a ha
        obtain ⟨x, _, rfl⟩ := List.mem_map.mp ha
        have hcne : centroids ≠ [] := by
          intro h0
          rw [h0] at hclen
          simp at hclen
          omega
        have := nearestCluster_lt env centroids x hcne
        omega
      by_cases hch : embeddings.map (nearestCluster env centroids) = asg
      · rw [if_pos hch] at h
        obtain ⟨rfl, rfl⟩ := Prod.mk.injEq .. ▸ Option.some.inj h
        exact ⟨hnewlen, hnewb⟩
      · rw [if_neg hch] at h
        obtain ⟨⟨ncs, maxShift⟩, hup⟩ := updateCentroids_some env embeddings k
          (embeddings.map (nearestCluster env centroids)) centroids it
        rw [hup] at h
        simp only at h
        have hncs : ncs.length = k :=
          updateCentroids_length env embeddings k _ centroids it (ncs, maxShift) hup
        by_cases hsh : maxShift < threshold
        · rw [if_pos hsh] at h
          obtain ⟨rfl, rfl⟩ := Prod.mk.injEq .. ▸ Option.some.inj h
          exact ⟨hnewlen, hnewb⟩
        · rw [if_neg hsh] at h
          exact ih (it + 1) _ ncs hnewlen hnewb hncs asg2 cents2 h

lemma finalize_invariants (env : KMeansEnv) (chunks : List ChunkForClustering)
    (k nr : ℕ) (asg : List ℕ) (centroids : List (List ℚ))
    (res : ClusteringResult)
    (hres : finalizeClusters env chunks k nr asg centroids = res)
    (hlen : asg.length = chunks.length)
    (hbound : ∀ a ∈ asg, a < k)
    (hnodup : (chunks.map (·.id)).Nodup) :
    res.clusterCount = res.clusters.length ∧
    res.clusters.map (·.id) = List.range res.clusters.length ∧
    res.clusters.Pairwise (fun a b => b.size ≤ a.size) ∧
    (∀ cl ∈ res.clusters,
      (chunks.filter (fun ch => mapGet res.assignments ch.id = some cl.id)).length
        = cl.size) ∧
    (∀ kv ∈ res.assignments, ∃ cl ∈ res.clusters, cl.id = kv.2) := by
  have hkeys_qs : ((asg.zip chunks).map (fun p => (p.2.id, p.1))).map Prod.fst
      = chunks.map (·.id) := by
    rw [List.map_map]
    have h2 : ((asg.zip chunks).map (Prod.fst ∘ fun p => (p.2.id, p.1)))
        = ((asg.zip chunks).map Prod.snd).map (·.id) := by
      rw [List.map_map]
      rfl
    rw [h2, List.map_snd_zip asg chunks (le_of_eq hlen.symm)]
  have hqs : (asg.zip chunks).foldl (fun m p => mapSet m p.2.id p.1) []
      = (asg.zip chunks).map (fun p => (p.2.id, p.1)) := by
    have h1 : (asg.zip chunks).foldl (fun m p => mapSet m p.2.id p.1) []
        = ((asg.zip chunks).map (fun p => (p.2.id, p.1))).foldl
            (fun m q => mapSet m q.1 q.2) [] := by
      rw [List.foldl_map]
    rw [h1]
    exact foldl_mapSet_nodup _ (hkeys_qs ▸ hnodup)
  have hclfold : (List.range k).foldl
      (fun (acc : List ConceptCluster) c =>
        if (clusterMembers chunks asg c).isEmpty then acc
        else acc ++ [buildCluster env chunks asg centroids nr c]) []
      = ((List.range k).filter (fun c => !(clusterMembers chunks asg c).isEmpty)).map
          (buildCluster env chunks asg centroids nr) := by
    simpa using foldl_if_append (List.range k)
      (fun c => (clusterMembers chunks asg c).isEmpty)
      (buildCluster env chunks asg centroids nr) []
  simp only [finalizeClusters] at hres
  rw [hqs, hclfold] at hres
  set qs := (asg.zip chunks).map (fun p => (p.2.id, p.1)) with hqsdef
  set S := (List.range k).filter (fun c => !(clusterMembers chunks asg c).isEmpty)
    with hSdef
  set clustersRaw := S.map (buildCluster env chunks asg centroids nr) with hRdef
  set sorted := stableSortByLt (fun (a b : ConceptCluster) => b.size < a.size) clustersRaw
    with hsorteddef
  set idMapping := sorted.enum.map (fun p => (p.2.id, p.1)) with hMdef
  set renumbered := sorted.enum.map (fun p => { p.2 with id := p.1 }) with hrendef
  set newAssignments := qs.map (fun kv =>
    match lookupNat idMapping kv.2 with
    | some nid => (kv.1, nid)
    | none => kv) with hNAdef
  subst hres
  have hbuild_id : ∀ c, (buildCluster env chunks asg centroids nr c).id = c :=
    fun _ => rfl
  have hbuild_size : ∀ c, (buildCluster env chunks asg centroids nr c).size
      = (clusterMembers chunks asg c).length := fun _ => rfl
  have hids_raw : clustersRaw.map (·.id) = S := by
    rw [hRdef, List.map_map]
    calc S.map ((·.id) ∘ buildCluster env chunks asg centroids nr)
        = S.map (fun c => c) := List.map_congr_left (fun c _ => hbuild_id c)
      _ = S := List.map_id' S
  have hS_nodup : S.Nodup := (List.nodup_range k).filter _
  have hperm : sorted.Perm clustersRaw := stableSortByLt_perm _ _
  have hsorted_ids_nodup : (sorted.map (·.id)).Nodup :=
    (hperm.map (·.id)).nodup_iff.mpr (hids_raw ▸ hS_nodup)
  have hkeysIdMap : idMapping.map Prod.fst = sorted.map (·.id) := by
    rw [hMdef, List.map_map]
    exact enumFrom_map_snd sorted (·.id) 0
  have hsorted_mem : ∀ cl ∈ sorted,
      cl = buildCluster env chunks asg centroids nr cl.id ∧ cl.id ∈ S := by
    intro cl hcl
    have h2 : cl ∈ clustersRaw := hperm.mem_iff.mp hcl
    obtain ⟨c, hcS, rfl⟩ := List.mem_map.mp h2
    rw [hbuild_id c]
    exact ⟨rfl, hcS⟩
  have hlook_some : ∀ a j, lookupNat idMapping a = some j ↔
      ∃ cl, sorted[j]? = some cl ∧ cl.id = a := by
    intro a j
    constructor
    · intro hl
      have hmem := lookupNat_mem idMapping a j hl
      rw [hMdef] at hmem
      obtain ⟨p, hp, heq⟩ := List.mem_map.mp hmem
      obtain ⟨i, cl⟩ := p
      obtain ⟨ha, hj⟩ := Prod.mk.injEq .. ▸ heq
      subst hj
      exact ⟨cl, List.mk_mem_enum_iff_getElem?.mp hp, ha⟩
    · intro ⟨cl, hget, hid⟩
      apply lookupNat_of_mem_nodup idMapping (hkeysIdMap ▸ hsorted_ids_nodup)
      rw [hMdef]
      apply List.mem_map.mpr
      exact ⟨(j, cl), List.mk_mem_enum_iff_getElem?.mpr hget, by rw [hid]⟩
  have hocc : ∀ p ∈ asg.zip chunks, ∃ j,
      lookupNat idMapping p.1 = some j ∧ ∃ cl, sorted[j]? = some cl ∧ cl.id = p.1 := by
    intro p hp
    have hmem : p.2 ∈ clusterMembers chunks asg p.1 := by
      unfold clusterMembers
      exact List.mem_map_of_mem _ (List.mem_filter.mpr ⟨hp, by simp⟩)
    have hne : (clusterMembers chunks asg p.1).isEmpty = false := by
      cases h0 : clusterMembers chunks asg p.1 with
      | nil => rw [h0] at hmem; cases hmem
      | cons x t => rfl
    have hpa_lt : p.1 < k := by
      obtain ⟨a, b⟩ := p
      exact hbound a (List.of_mem_zip hp).1
    have hSm : p.1 ∈ S := by
      rw [hSdef]
      exact List.mem_filter.mpr ⟨List.mem_range.mpr hpa_lt, by simp [hne]⟩
    have hcl : buildCluster env chunks asg centroids nr p.1 ∈ sorted :=
      hperm.mem_iff.mpr (by rw [hRdef]; exact List.mem_map_of_mem _ hSm)
    obtain ⟨j, hj⟩ := List.mem_iff_getElem?.mp hcl
    exact ⟨j, (hlook_some p.1 j).mpr ⟨_, hj, hbuild_id _⟩, _, hj, hbuild_id _⟩
  have hNA_keys : newAssignments.map Prod.fst = chunks.map (·.id) := by
    rw [hNAdef, List.map_map]
    calc qs.map (Prod.fst ∘ fun kv =>
          match lookupNat idMapping kv.2 with
          | some nid => (kv.1, nid)
          | none => kv)
        = qs.map Prod.fst := by
          apply List.map_congr_left
          intro kv _
          simp only [Function.comp_apply]
          cases h0 : lookupNat idMapping kv.2 <;> simp [h0]
      _ = chunks.map (·.id) := by rw [hqsdef]; exact hkeys_qs
  have hNA_get : ∀ p ∈ asg.zip chunks, ∀ j, lookupNat idMapping p.1 = some j →
      mapGet newAssignments p.2.id = some j := by
    intro p hp j hl
    apply mapGet_of_mem_nodup _ (hNA_keys ▸ hnodup)
    rw [hNAdef]
    apply List.mem_map.mpr
    refine ⟨(p.2.id, p.1), ?_, by simp [hl]⟩
    rw [hqsdef]
    exact List.mem_map_of_mem _ hp
  have hlen_ren : renumbered.length = sorted.length := by
    rw [hrendef]
    simp [List.enum_length]
  refine ⟨rfl, ?_, ?_, ?_, ?_⟩
  · show renumbered.map (·.id) = List.range renumbered.length
    rw [hlen_ren, hrendef]
    rw [List.range_eq_range']
    exact renumber_map_id sorted 0
  · show renumbered.Pairwise (fun a b => b.size ≤ a.size)
    have hsz : renumbered.map (·.size) = sorted.map (·.size) := by
      rw [hrendef]
      exact renumber_map_size sorted 0
    have hss : (sorted.map (·.size)).Pairwise (fun a b => b ≤ a) :=
      List.pairwise_map.mpr (stableSortByLt_sorted_size clustersRaw)
    rw [← hsz] at hss
    exact List.pairwise_map.mp hss
  · show ∀ cl ∈ renumbered, (chunks.filter
        (fun ch => mapGet newAssignments ch.id = some cl.id)).length = cl.size
    intro cl hcl
    rw [hrendef] at hcl
    obtain ⟨p, hp, rfl⟩ := List.mem_map.mp hcl
    obtain ⟨j, scl⟩ := p
    have hj : sorted[j]? = some scl := List.mk_mem_enum_iff_getElem?.mp hp
    have hsclmem : scl ∈ sorted := List.getElem?_mem hj
    obtain ⟨hscl_build, hsclS⟩ := hsorted_mem scl hsclmem
    have hlookj : ∀ a, lookupNat idMapping a = some j ↔ a = scl.id := by
      intro a
      constructor
      · intro hl
        obtain ⟨cl2, hg2, hid2⟩ := (hlook_some a j).mp hl
        rw [hj] at hg2
        obtain rfl := Option.some.inj hg2
        exact hid2.symm
      · intro ha
        exact (hlook_some a j).mpr ⟨scl, hj, ha.symm⟩
    show (chunks.filter (fun ch => mapGet newAssignments ch.id = some j)).length
        = scl.size
    have hchunks_eq : chunks = (asg.zip chunks).map Prod.snd :=
      (List.map_snd_zip asg chunks (le_of_eq hlen.symm)).symm
    conv_lhs => rw [hchunks_eq]
    rw [List.filter_map, List.length_map]
    have hpt : ∀ p ∈ asg.zip chunks,
        ((fun ch => decide (mapGet newAssignments ch.id = some j)) ∘ Prod.snd) p
          = decide (p.1 = scl.id) := by
      intro p hp
      obtain ⟨j0, hl0, cl0, hg0, hid0⟩ := hocc p hp
      have hmg := hNA_get p hp j0 hl0
      show decide (mapGet newAssignments p.2.id = some j) = decide (p.1 = scl.id)
      rw [decide_eq_decide]
      rw [hmg]
      constructor
      · intro hjj
        obtain rfl := Option.some.inj hjj
        exact (hlookj p.1).mp hl0
      · intro hpc
        rw [(hlookj p.1).mpr hpc] at hl0
        rw [Option.some.inj hl0]
    rw [List.filter_congr hpt]
    rw [hscl_build, hbuild_size]
    unfold clusterMembers
    rw [List.length_map]
    rfl
  · show ∀ kv ∈ newAssignments, ∃ cl ∈ renumbered, cl.id = kv.2
    intro kv hkv
    rw [hNAdef] at hkv
    obtain ⟨kv0, hkv0, rfl⟩ := List.mem_map.mp hkv
    rw [hqsdef] at hkv0
    obtain ⟨p, hp, rfl⟩ := List.mem_map.mp hkv0
    obtain ⟨j, hl, cl0, hg, hid⟩ := hocc p hp
    refine ⟨{ cl0 with id := j }, ?_, ?_⟩
    · rw [hrendef]
      exact List.mem_map.mpr ⟨(j, cl0), List.mk_mem_enum_iff_getElem?.mpr hg, rfl⟩
    · simp [hl]

/-- C4 (amended: the chunk ids must be pairwise distinct, since the JS
assignment `Map` collapses duplicate ids): for a non-empty chunk list with
distinct ids, every `kMeansClustering` result has its cluster list sorted
by non-increasing size, its cluster ids exactly 0..clusterCount−1 in list
order, each cluster size equal to the number of chunks assigned to that
cluster id, and every assignment value the id of some returned cluster. -/
theorem c4_kmeans_result_invariants (env : KMeansEnv) (chunks : List ChunkForClustering)
    (options : ClusteringOptions) (res : ClusteringResult)
    (hne : chunks ≠ [])
    (hnodup : (chunks.map (·.id)).Nodup)
    (hres : kMeansClustering env chunks options = some res) :
    res.clusterCount = res.clusters.length ∧
    res.clusters.map (·.id) = List.range res.clusters.length ∧
    res.clusters.Pairwise (fun a b => b.size ≤ a.size) ∧
    (∀ cl ∈ res.clusters,
      (chunks.filter (fun ch => mapGet res.assignments ch.id = some cl.id)).length
        = cl.size) ∧
    (∀ kv ∈ res.assignments, ∃ cl ∈ res.clusters, cl.id = kv.2) := by
  have hemp : chunks.isEmpty = false := by
    cases chunks with
    | nil => exact absurd rfl hne
    | cons x t => rfl
  simp only [kMeansClustering, hemp, Bool.false_eq_true, if_false] at hres
  by_cases hk : kTarget chunks options ≤ 1
  · obtain ⟨cen, hcen⟩ := calculateCentroid_ne_none (chunks.map (·.embedding))
      (by intro h0; exact hne (by simpa using h0))
    rw [if_pos hk, hcen] at hres
    obtain rfl := Option.some.inj hres
    have hasg : chunks.foldl (fun m c => mapSet m c.id 0) []
        = chunks.map (fun ch => (ch.id, 0)) := by
      have h1 : chunks.foldl (fun m c => mapSet m c.id 0) []
          = (chunks.map (fun ch => (ch.id, 0))).foldl (fun m q => mapSet m q.1 q.2) [] := by
        rw [List.foldl_map]
      rw [h1]
      apply foldl_mapSet_nodup
      rw [List.map_map]
      exact hnodup
    refine ⟨rfl, by simp [List.range_succ], by simp, ?_, ?_⟩
    · intro cl hcl
      obtain rfl := List.mem_singleton.mp hcl
      show (chunks.filter (fun ch => mapGet _ ch.id = some 0)).length = chunks.length
      simp only [hasg]
      have hall : ∀ ch ∈ chunks,
          (decide (mapGet (chunks.map (fun ch => (ch.id, 0))) ch.id = some 0))
            = (true : Bool) := by
        intro ch hch
        have := mapGet_of_mem_nodup (chunks.map (fun ch => (ch.id, 0)))
          (by rw [List.map_map]; exact hnodup) ch.id 0
          (List.mem_map_of_mem _ hch)
        simp [this]
      rw [List.filter_congr hall]
      simp
    · intro kv hkv
      simp only [hasg] at hkv
      obtain ⟨ch, _, rfl⟩ := List.mem_map.mp hkv
      exact ⟨_, List.mem_cons_self _ _, rfl⟩
  · rw [if_neg hk] at hres
    obtain ⟨⟨asg, cents⟩, hl⟩ := lloydLoop_some env (chunks.map (·.embedding))
      (kTarget chunks options) (options.convergenceThreshold.getD (1/1000))
      (options.maxIterations.getD 100) 0 (List.replicate chunks.length 0)
      (initializeCentroidsKMeansPP env (chunks.map (·.embedding))
        (kTarget chunks options))
    rw [hl] at hres
    simp only at hres
    have hk1 : 1 ≤ kTarget chunks options := by omega
    have hinv := lloydLoop_invariant env (chunks.map (·.embedding))
      (kTarget chunks options) (options.convergenceThreshold.getD (1/1000)) hk1
      (options.maxIterations.getD 100) 0 (List.replicate chunks.length 0)
      (initializeCentroidsKMeansPP env (chunks.map (·.embedding))
        (kTarget chunks options))
      (by simp) (fun a ha => by rw [List.eq_of_mem_replicate ha]; omega)
      (initializeCentroids_length env (chunks.map (·.embedding))
        (kTarget chunks options) hk1)
      asg cents hl
    exact finalize_invariants env chunks (kTarget chunks options)
      (options.numRepresentatives.getD 3) asg cents res (Option.some.inj hres)
      (by rw [hinv.1]; simp) hinv.2 hnodup

/-- Two chunks sharing the id "a", with 1-dimensional embeddings 0 and 1. -/
def chunksDup : List ChunkForClustering := [chunkW "a" [0], chunkW "a" [1]]

/-- Environment for the duplicate-id counterexample: the distance is the
source Euclidean distance restricted to 1-dimensional vectors
(`√((x−y)²) = |x−y|`), the k-means++ draws pick the two distinct points
as seeds, and labeling is trivial. -/
def envC : KMeansEnv :=
  ⟨fun a b => |a.headD 0 - b.headD 0|,
   fun t => if t = 0 then 0 else 1/2,
   fun _ _ => 0, fun _ _ => "", fun _ => []⟩

/-- `numClusters = 2`, `maxIterations = 1`; other options defaulted. -/
def optsC : ClusteringOptions := ⟨some 2, some 1, none, none⟩

/-- The concrete clustering result on `chunksDup`. -/
def resDup : ClusteringResult :=
  ⟨2,
   [⟨0, "", 1, ["a"], [0], []⟩, ⟨1, "", 1, ["a"], [1], []⟩],
   [("a", 1)]⟩

/-- Counterexample to C4 as stated: on a non-empty chunk list whose two
chunks share the id "a", the returned cluster with id 0 has size 1, yet
no chunk has its assignment mapped to 0 — the JS `Map` keyed by chunk id
collapsed the two chunks into one entry. -/
theorem c4_kmeans_counterexample :
    chunksDup ≠ [] ∧
    kMeansClustering envC chunksDup optsC = some resDup ∧
    resDup.clusters.map (fun cl => (cl.id, cl.size)) = [(0, 1), (1, 1)] ∧
    (chunksDup.filter
      (fun ch => mapGet resDup.assignments ch.id = some 0)).length = 0 := by
  refine ⟨by decide, ?_, by decide, by decide⟩
  norm_num [kMeansClustering, kTarget, chunksDup, chunkW, optsC, envC, resDup,
    lloydLoop, nearestCluster, updateCentroids, updateCentroidStep,
    calculateCentroid, finalizeClusters, clusterMembers, buildCluster,
    stableSortByLt, insertByLt, mapSet, mapGet, lookupNat, jsIdx, minDistTo,
    foldMinQ, weightedSelect, weightedSelectAux, initializeCentroidsKMeansPP,
    List.range_succ, List.range', List.enum, List.enumFrom]

/-- Two chunks with distinct ids and 1-dimensional embeddings 0 and 1. -/
def chunksW2 : List ChunkForClustering := [chunkW "a" [0], chunkW "b" [1]]

/-- The concrete clustering result on `chunksW2`. -/
def resW2 : ClusteringResult :=
  ⟨2,
   [⟨0, "", 1, ["a"], [0], []⟩, ⟨1, "", 1, ["b"], [1], []⟩],
   [("a", 0), ("b", 1)]⟩

/-- Witness for the amended C4 at a concrete two-chunk input with
distinct ids. -/
theorem c4_kmeans_result_invariants_witness :
    (chunksW2 ≠ [] ∧ (chunksW2.map (·.id)).Nodup ∧
      kMeansClustering envC chunksW2 optsC = some resW2) ∧
    (resW2.clusterCount = resW2.clusters.length ∧
      resW2.clusters.map (·.id) = List.range resW2.clusters.length ∧
      resW2.clusters.Pairwise (fun a b => b.size ≤ a.size) ∧
      (∀ cl ∈ resW2.clusters,
        (chunksW2.filter (fun ch => mapGet resW2.assignments ch.id = some cl.id)).length
          = cl.size) ∧
      (∀ kv ∈ resW2.assignments, ∃ cl ∈ resW2.clusters, cl.id = kv.2)) := by
  have hrun : kMeansClustering envC chunksW2 optsC = some resW2 := by
    norm_num [kMeansClustering, kTarget, chunksW2, chunkW, optsC, envC, resW2,
      lloydLoop, nearestCluster, updateCentroids, updateCentroidStep,
      calculateCentroid, finalizeClusters, clusterMembers, buildCluster,
      stableSortByLt, insertByLt, mapSet, mapGet, lookupNat, jsIdx, minDistTo,
      foldMinQ, weightedSelect, weightedSelectAux, initializeCentroidsKMeansPP,
      List.range_succ, List.range', List.enum, List.enumFrom]
    decide
  exact ⟨⟨by decide, by decide, hrun⟩,
    c4_kmeans_result_invariants envC chunksW2 optsC resW2 (by decide) (by decide) hrun⟩
